import Mathlib

/-! # go-rpmdb: interpretation of RPM header entries

A shallow embedding of `pkg/package.go` and `pkg/rpmtags.go`: the scalar and
array decoders, the NEVRA extractor `getNEVRA` and the file-table
reconstructor `getFileInfo`, followed by the properties proved about them.

Conventions of the embedding.
* A Go `[]byte` and a Go `string` are both sequences of bytes: `List Byte`.
* A Go call ends in one of three ways: it returns a value, it returns a
  non-nil `error`, or it panics at run time.  `Outcome` keeps the three apart.
* A possibly-nil slice whose nil-ness the code inspects is an `Option`.
* `int32`, `int` values are integers (`Int`) in the range the decoder yields;
  `uint16` and `uint32` values are naturals.
* The platform is a 64-bit one: `make` panics on a negative length and on a
  size above the allocation limit of the runtime. Exhaustion of the memory of
  the machine below that limit is outside the embedding.
-/

namespace rpmdb

/-! ## Bytes, strings, errors -/

/-- One byte. -/
abbrev Byte := Fin 256

/-- Go strings are immutable byte sequences. -/
abbrev GoString := List Byte

/-- The bytes of an ASCII literal. -/
def ascii (s : String) : GoString := s.toList.map (fun c => Fin.ofNat c.toNat)

/-- Go error values that can arise here: the two sentinels of package io, a
fresh error made by xerrors.New, and an error wrapped by xerrors.Errorf with
a message followed by the cause. -/
inductive GoError where
  | EOF
  | ErrUnexpectedEOF
  | new (msg : String)
  | wrap (msg : String) (cause : GoError)
  deriving DecidableEq

/-- The allocation limit of the Go runtime on 64-bit platforms, 2^48 bytes:
makeslice panics when the requested size in bytes is above it, and no slice
holds more bytes than this. -/
def maxAlloc : Nat := 281474976710656

/-- Run-time panics that can arise here: an index out of range, and the
panic of makeslice, "len out of range". -/
inductive RuntimePanic where
  | indexOutOfRange (index : Int) (length : Nat)
  | makesliceLen
  deriving DecidableEq

/-- How a call ends: with a value, with a returned error, or in a panic. -/
inductive Outcome (α : Type) where
  | ok (val : α)
  | err (e : GoError)
  | panic (p : RuntimePanic)
  deriving DecidableEq

/-! ## rpmtags.go -/

@[reducible] def RPMTAG_NAME : Int := 1000
@[reducible] def RPMTAG_VERSION : Int := 1001
@[reducible] def RPMTAG_RELEASE : Int := 1002
@[reducible] def RPMTAG_EPOCH : Int := 1003
@[reducible] def RPMTAG_ARCH : Int := 1022
@[reducible] def RPMTAG_SOURCERPM : Int := 1044
@[reducible] def RPMTAG_SIZE : Int := 1009
@[reducible] def RPMTAG_LICENSE : Int := 1014
@[reducible] def RPMTAG_VENDOR : Int := 1011
@[reducible] def RPMTAG_DIRINDEXES : Int := 1116
@[reducible] def RPMTAG_BASENAMES : Int := 1117
@[reducible] def RPMTAG_DIRNAMES : Int := 1118
@[reducible] def RPMTAG_FILESIZES : Int := 1028
@[reducible] def RPMTAG_FILEMODES : Int := 1030
@[reducible] def RPMTAG_FILEDIGESTS : Int := 1035
@[reducible] def RPMTAG_FILEFLAGS : Int := 1037
@[reducible] def RPMTAG_FILEUSERNAME : Int := 1039
@[reducible] def RPMTAG_FILEGROUPNAME : Int := 1040
@[reducible] def RPMTAG_FILEDIGESTALGO : Int := 5011

@[reducible] def RPM_NULL_TYPE : Nat := 0
@[reducible] def RPM_CHAR_TYPE : Nat := 1
@[reducible] def RPM_INT8_TYPE : Nat := 2
@[reducible] def RPM_INT16_TYPE : Nat := 3
@[reducible] def RPM_INT32_TYPE : Nat := 4
@[reducible] def RPM_INT64_TYPE : Nat := 5
@[reducible] def RPM_STRING_TYPE : Nat := 6
@[reducible] def RPM_BIN_TYPE : Nat := 7
@[reducible] def RPM_STRING_ARRAY_TYPE : Nat := 8
@[reducible] def RPM_I18NSTRING_TYPE : Nat := 9

/-! ## Data model -/

/-- Modelled from the spec: the declaration of the entry descriptor is not in
the two source files; the code reads its fields Tag and Type (here Typ, an
integer code compared with the RPM_*_TYPE constants). -/
structure entryInfo where
  Tag : Int
  Typ : Nat
  deriving DecidableEq

/-- Modelled from the spec: the declaration of the index entry is not in the
two source files; the code reads Info, Length (a Go int) and Data (a byte
slice that may be nil). Being a Go slice, Data holds at most maxAlloc bytes,
which the field bounded records. -/
structure indexEntry where
  Info : entryInfo
  Length : Int
  Data : Option (List Byte)
  bounded : (Data.getD []).length ≤ maxAlloc
  deriving DecidableEq

/-- The payload as a byte sequence; a nil slice has no bytes. -/
def indexEntry.bytes (ie : indexEntry) : List Byte := ie.Data.getD []

/-- File record of package.go.  Flags has the source type FileFlags, whose
declaration is not in the two source files; it is converted from an int32 and
kept as that integer. -/
structure FileInfo where
  Path : GoString
  Mode : Nat
  Digest : GoString
  Size : Int
  Username : GoString
  Groupname : GoString
  Flags : Int
  deriving DecidableEq

/-- Package descriptor of package.go.  Epoch is a pointer in the source: none
is the nil pointer.  DigestAlgorithm has a source type whose declaration is not
in the two source files; it is converted from an int and kept as that
integer.  Files identifies the nil slice with the empty one. -/
structure PackageInfo where
  Epoch : Option Int
  Name : GoString
  Version : GoString
  Release : GoString
  Arch : GoString
  SourceRpm : GoString
  Size : Int
  License : GoString
  Vendor : GoString
  DigestAlgorithm : Int
  Files : List FileInfo
  deriving DecidableEq

/-- The zero value of PackageInfo, as allocated at the head of getNEVRA. -/
def PackageInfo.zero : PackageInfo :=
  { Epoch := none, Name := [], Version := [], Release := [], Arch := [],
    SourceRpm := [], Size := 0, License := [], Vendor := [],
    DigestAlgorithm := 0, Files := [] }

@[reducible] def sizeOfInt32 : Int := 4
@[reducible] def sizeOfUInt16 : Int := 2

/-! ## Library functions used by the decoders -/

/-- Big-endian unsigned value of four bytes. -/
def beUint32 (b0 b1 b2 b3 : Byte) : Nat :=
  b0.val * 2 ^ 24 + b1.val * 2 ^ 16 + b2.val * 2 ^ 8 + b3.val

/-- Reinterpretation of a 32-bit pattern as a two's-complement int32. -/
def asInt32 (u : Nat) : Int :=
  if u % 2 ^ 32 < 2 ^ 31 then ((u % 2 ^ 32 : Nat) : Int)
  else ((u % 2 ^ 32 : Nat) : Int) - 2 ^ 32

/-- binary.BigEndian decoding of consecutive int32 values. -/
def decodeInt32s : List Byte → List Int
  | b0 :: b1 :: b2 :: b3 :: rest => asInt32 (beUint32 b0 b1 b2 b3) :: decodeInt32s rest
  | _ => []

/-- binary.BigEndian decoding of consecutive uint16 values. -/
def decodeUint16s : List Byte → List Nat
  | b0 :: b1 :: rest => (b0.val * 2 ^ 8 + b1.val) :: decodeUint16s rest
  | _ => []

/-- The error of io.ReadFull on a bytes.Reader holding fewer bytes than the
buffer: io.EOF when nothing could be read, io.ErrUnexpectedEOF otherwise. -/
def shortRead (data : List Byte) : GoError :=
  if data.length = 0 then GoError.EOF else GoError.ErrUnexpectedEOF

/-- binary.Read(bytes.NewReader(data), binary.BigEndian, &value) for an int32
value: reads exactly four bytes, whatever follows them. -/
def binaryReadInt32 (data : List Byte) : Outcome Int :=
  match data with
  | b0 :: b1 :: b2 :: b3 :: _ => Outcome.ok (asInt32 (beUint32 b0 b1 b2 b3))
  | _ => Outcome.err (shortRead data)

/-- binary.Read into a slice of n int32 values: reads exactly 4 * n bytes; a
buffer of size zero is read without error. -/
def binaryReadInt32Slice (data : List Byte) (n : Nat) : Outcome (List Int) :=
  if data.length < 4 * n then Outcome.err (shortRead data)
  else Outcome.ok (decodeInt32s (data.take (4 * n)))

/-- binary.Read into a slice of n uint16 values: reads exactly 2 * n bytes. -/
def binaryReadUint16Slice (data : List Byte) (n : Nat) : Outcome (List Nat) :=
  if data.length < 2 * n then Outcome.err (shortRead data)
  else Outcome.ok (decodeUint16s (data.take (2 * n)))

/-- bytes.TrimRight(data, "\x00"): the longest prefix not ending in NUL. -/
def trimRightNul (data : List Byte) : List Byte :=
  (data.reverse.dropWhile (fun b => b = 0)).reverse

/-! ## package.go: decoders -/

def parseInt32 (data : List Byte) : Outcome Int :=
  match binaryReadInt32 data with
  | Outcome.ok value => Outcome.ok value
  | Outcome.err e => Outcome.err (GoError.wrap "failed to read binary" e)
  | Outcome.panic p => Outcome.panic p

def parseStringArray (data : List Byte) : List GoString :=
  let elements := data.splitOn 0
  if elements.length > 0 ∧ elements.getLast? = some [] then elements.dropLast
  else elements

/-- The test of makeslice for a slice of length elements of elemSize bytes:
the length is negative or the size in bytes is above the allocation limit. -/
def makeslicePanics (elemSize : Int) (length : Int) : Prop :=
  length < 0 ∨ (maxAlloc : Int) < elemSize * length

instance (elemSize length : Int) : Decidable (makeslicePanics elemSize length) := by
  unfold makeslicePanics
  infer_instance

def parseInt32Array (data : List Byte) (arraySize : Int) : Outcome (List Int) :=
  let length := arraySize.tdiv sizeOfInt32
  if makeslicePanics sizeOfInt32 length then Outcome.panic RuntimePanic.makesliceLen
  else
    match binaryReadInt32Slice data length.toNat with
    | Outcome.ok values => Outcome.ok values
    | Outcome.err e => Outcome.err (GoError.wrap "failed to read binary" e)
    | Outcome.panic p => Outcome.panic p

def parseUInt16Array (data : List Byte) (arraySize : Int) : Outcome (List Nat) :=
  let length := arraySize.tdiv sizeOfUInt16
  if makeslicePanics sizeOfUInt16 length then Outcome.panic RuntimePanic.makesliceLen
  else
    match binaryReadUint16Slice data length.toNat with
    | Outcome.ok values => Outcome.ok values
    | Outcome.err e => Outcome.err (GoError.wrap "failed to read binary" e)
    | Outcome.panic p => Outcome.panic p

/-! ## package.go: getNEVRA, the scan -/

/-- The literal "(none)". -/
def noneLiteral : GoString := [40, 110, 111, 110, 101, 41]

/-- Replacement of "(none)" by the empty string. -/
def dropNone (s : GoString) : GoString := if s = noneLiteral then [] else s

/-- One iteration of the loop of getNEVRA: the switch on the tag. -/
def nevraStep (pkgInfo : PackageInfo) (ie : indexEntry) : Outcome PackageInfo :=
  if ie.Info.Tag = RPMTAG_NAME then
    if ie.Info.Typ ≠ RPM_STRING_TYPE then Outcome.err (GoError.new "invalid tag name")
    else Outcome.ok { pkgInfo with Name := trimRightNul ie.bytes }
  else if ie.Info.Tag = RPMTAG_EPOCH then
    if ie.Info.Typ ≠ RPM_INT32_TYPE then Outcome.err (GoError.new "invalid tag epoch")
    else
      match ie.Data with
      | none => Outcome.ok pkgInfo
      | some data =>
        match parseInt32 data with
        | Outcome.ok value => Outcome.ok { pkgInfo with Epoch := some value }
        | Outcome.err e => Outcome.err (GoError.wrap "failed to parse epoch" e)
        | Outcome.panic p => Outcome.panic p
  else if ie.Info.Tag = RPMTAG_VERSION then
    if ie.Info.Typ ≠ RPM_STRING_TYPE then Outcome.err (GoError.new "invalid tag version")
    else Outcome.ok { pkgInfo with Version := trimRightNul ie.bytes }
  else if ie.Info.Tag = RPMTAG_RELEASE then
    if ie.Info.Typ ≠ RPM_STRING_TYPE then Outcome.err (GoError.new "invalid tag release")
    else Outcome.ok { pkgInfo with Release := trimRightNul ie.bytes }
  else if ie.Info.Tag = RPMTAG_ARCH then
    if ie.Info.Typ ≠ RPM_STRING_TYPE then Outcome.err (GoError.new "invalid tag arch")
    else Outcome.ok { pkgInfo with Arch := trimRightNul ie.bytes }
  else if ie.Info.Tag = RPMTAG_SOURCERPM then
    if ie.Info.Typ ≠ RPM_STRING_TYPE then Outcome.err (GoError.new "invalid tag sourcerpm")
    else Outcome.ok { pkgInfo with SourceRpm := dropNone (trimRightNul ie.bytes) }
  else if ie.Info.Tag = RPMTAG_LICENSE then
    if ie.Info.Typ ≠ RPM_STRING_TYPE then Outcome.err (GoError.new "invalid tag license")
    else Outcome.ok { pkgInfo with License := dropNone (trimRightNul ie.bytes) }
  else if ie.Info.Tag = RPMTAG_VENDOR then
    if ie.Info.Typ ≠ RPM_STRING_TYPE then Outcome.err (GoError.new "invalid tag vendor")
    else Outcome.ok { pkgInfo with Vendor := dropNone (trimRightNul ie.bytes) }
  else if ie.Info.Tag = RPMTAG_SIZE then
    if ie.Info.Typ ≠ RPM_INT32_TYPE then Outcome.err (GoError.new "invalid tag size")
    else
      match binaryReadInt32 ie.bytes with
      | Outcome.ok size => Outcome.ok { pkgInfo with Size := size }
      | Outcome.err e => Outcome.err (GoError.wrap "failed to read binary (size)" e)
      | Outcome.panic p => Outcome.panic p
  else if ie.Info.Tag = RPMTAG_FILEDIGESTALGO then
    if ie.Info.Typ ≠ RPM_INT32_TYPE then Outcome.err (GoError.new "invalid tag digest algo")
    else
      match binaryReadInt32 ie.bytes with
      | Outcome.ok digestAlgo => Outcome.ok { pkgInfo with DigestAlgorithm := digestAlgo }
      | Outcome.err e => Outcome.err (GoError.wrap "failed to read binary digest algo" e)
      | Outcome.panic p => Outcome.panic p
  else Outcome.ok pkgInfo

/-- The loop of getNEVRA over the entries, from the descriptor built so far. -/
def nevraLoop : List indexEntry → PackageInfo → Outcome PackageInfo
  | [], pkgInfo => Outcome.ok pkgInfo
  | ie :: rest, pkgInfo =>
    match nevraStep pkgInfo ie with
    | Outcome.ok next => nevraLoop rest next
    | Outcome.err e => Outcome.err e
    | Outcome.panic p => Outcome.panic p

/-! ## package.go: getFileInfo -/

/-- The nine local slices of getFileInfo; none is the nil slice. -/
structure FileArrays where
  allBasenames : Option (List GoString)
  allDirs : Option (List GoString)
  allDirIndexes : Option (List Int)
  allFileDigests : Option (List GoString)
  allFileModes : Option (List Nat)
  allFileSizes : Option (List Int)
  allFileFlags : Option (List Int)
  allUserNames : Option (List GoString)
  allGroupNames : Option (List GoString)
  deriving DecidableEq

/-- All nine slices nil, as declared at the head of getFileInfo. -/
def FileArrays.zero : FileArrays :=
  { allBasenames := none, allDirs := none, allDirIndexes := none,
    allFileDigests := none, allFileModes := none, allFileSizes := none,
    allFileFlags := none, allUserNames := none, allGroupNames := none }

/-- One iteration of the first loop of getFileInfo: the switch on the tag. -/
def fileStep (a : FileArrays) (ie : indexEntry) : Outcome FileArrays :=
  if ie.Info.Tag = RPMTAG_FILESIZES then
    if ie.Info.Typ ≠ RPM_INT32_TYPE then Outcome.err (GoError.new "invalid tag file-sizes")
    else
      match parseInt32Array ie.bytes ie.Length with
      | Outcome.ok values => Outcome.ok { a with allFileSizes := some values }
      | Outcome.err e => Outcome.err (GoError.wrap "failed to parse file-sizes" e)
      | Outcome.panic p => Outcome.panic p
  else if ie.Info.Tag = RPMTAG_FILEFLAGS then
    if ie.Info.Typ ≠ RPM_INT32_TYPE then Outcome.err (GoError.new "invalid tag file-flags")
    else
      match parseInt32Array ie.bytes ie.Length with
      | Outcome.ok values => Outcome.ok { a with allFileFlags := some values }
      | Outcome.err e => Outcome.err (GoError.wrap "failed to parse file-flags" e)
      | Outcome.panic p => Outcome.panic p
  else if ie.Info.Tag = RPMTAG_FILEDIGESTS then
    if ie.Info.Typ ≠ RPM_STRING_ARRAY_TYPE then
      Outcome.err (GoError.new "invalid tag file-digests")
    else Outcome.ok { a with allFileDigests := some (parseStringArray ie.bytes) }
  else if ie.Info.Tag = RPMTAG_FILEMODES then
    if ie.Info.Typ ≠ RPM_INT16_TYPE then Outcome.err (GoError.new "invalid tag file-modes")
    else
      match parseUInt16Array ie.bytes ie.Length with
      | Outcome.ok values => Outcome.ok { a with allFileModes := some values }
      | Outcome.err e => Outcome.err (GoError.wrap "failed to parse file-modes" e)
      | Outcome.panic p => Outcome.panic p
  else if ie.Info.Tag = RPMTAG_BASENAMES then
    if ie.Info.Typ ≠ RPM_STRING_ARRAY_TYPE then
      Outcome.err (GoError.new "invalid tag basenames")
    else Outcome.ok { a with allBasenames := some (parseStringArray ie.bytes) }
  else if ie.Info.Tag = RPMTAG_FILEUSERNAME then
    if ie.Info.Typ ≠ RPM_STRING_ARRAY_TYPE then
      Outcome.err (GoError.new "invalid tag usernames")
    else Outcome.ok { a with allUserNames := some (parseStringArray ie.bytes) }
  else if ie.Info.Tag = RPMTAG_FILEGROUPNAME then
    if ie.Info.Typ ≠ RPM_STRING_ARRAY_TYPE then
      Outcome.err (GoError.new "invalid tag groupnames")
    else Outcome.ok { a with allGroupNames := some (parseStringArray ie.bytes) }
  else if ie.Info.Tag = RPMTAG_DIRNAMES then
    if ie.Info.Typ ≠ RPM_STRING_ARRAY_TYPE then
      Outcome.err (GoError.new "invalid tag dir-names")
    else Outcome.ok { a with allDirs := some (parseStringArray ie.bytes) }
  else if ie.Info.Tag = RPMTAG_DIRINDEXES then
    if ie.Info.Typ ≠ RPM_INT32_TYPE then Outcome.err (GoError.new "invalid tag dir-indexes")
    else
      match parseInt32Array ie.bytes ie.Length with
      | Outcome.ok values => Outcome.ok { a with allDirIndexes := some values }
      | Outcome.err e => Outcome.err (GoError.wrap "failed to parse dir-indexes" e)
      | Outcome.panic p => Outcome.panic p
  else Outcome.ok a

/-- The first loop of getFileInfo, from the slices collected so far. -/
def fileLoop : List indexEntry → FileArrays → Outcome FileArrays
  | [], a => Outcome.ok a
  | ie :: rest, a =>
    match fileStep a ie with
    | Outcome.ok next => fileLoop rest next
    | Outcome.err e => Outcome.err e
    | Outcome.panic p => Outcome.panic p

/-- The slices collected by the first loop of getFileInfo. -/
def collectFileArrays (indexEntries : List indexEntry) : Outcome FileArrays :=
  fileLoop indexEntries FileArrays.zero

/-- The guarded read `if xs != nil && len(xs) > i then xs[i]`, which leaves
the variable at its zero value otherwise. -/
def guardedAt {α : Type} (xs : Option (List α)) (i : Nat) (zero : α) : α :=
  match xs with
  | none => zero
  | some l => if l.length > i then l.getD i zero else zero

/-- The unguarded read `allDirIndexes[i]`. -/
def indexAt (xs : List Int) (i : Nat) : Outcome Int :=
  match xs[i]? with
  | some v => Outcome.ok v
  | none => Outcome.panic (RuntimePanic.indexOutOfRange i xs.length)

/-- The unguarded read `allDirs[d]` at an int32 index. -/
def dirAt (xs : List GoString) (d : Int) : Outcome GoString :=
  if d < 0 then Outcome.panic (RuntimePanic.indexOutOfRange d xs.length)
  else
    match xs[d.toNat]? with
    | some v => Outcome.ok v
    | none => Outcome.panic (RuntimePanic.indexOutOfRange d xs.length)

/-- The body of the second loop of getFileInfo, `for i, file := range
allBasenames`, over the basenames still to visit, with the records appended
so far. -/
def joinLoop (a : FileArrays) (allDirs : List GoString) (allDirIndexes : List Int) :
    Nat → List GoString → List FileInfo → Outcome (List FileInfo)
  | _, [], files => Outcome.ok files
  | i, file :: rest, files =>
    let digest := guardedAt a.allFileDigests i []
    let mode := guardedAt a.allFileModes i 0
    let size := guardedAt a.allFileSizes i 0
    let username := guardedAt a.allUserNames i []
    let groupname := guardedAt a.allGroupNames i []
    let flags := guardedAt a.allFileFlags i 0
    match indexAt allDirIndexes i with
    | Outcome.err e => Outcome.err e
    | Outcome.panic p => Outcome.panic p
    | Outcome.ok d =>
      match dirAt allDirs d with
      | Outcome.err e => Outcome.err e
      | Outcome.panic p => Outcome.panic p
      | Outcome.ok dir =>
        let record : FileInfo :=
          { Path := dir ++ file, Mode := mode, Digest := digest, Size := size,
            Username := username, Groupname := groupname, Flags := flags }
        joinLoop a allDirs allDirIndexes (i + 1) rest (files ++ [record])

/-- The part of getFileInfo after the first loop: the join, run only when both
allDirs and allDirIndexes are non-nil. -/
def joinFiles (a : FileArrays) : Outcome (List FileInfo) :=
  match a.allDirs, a.allDirIndexes with
  | some allDirs, some allDirIndexes =>
    joinLoop a allDirs allDirIndexes 0 (a.allBasenames.getD []) []
  | _, _ => Outcome.ok []

def getFileInfo (indexEntries : List indexEntry) : Outcome (List FileInfo) :=
  match collectFileArrays indexEntries with
  | Outcome.ok a => joinFiles a
  | Outcome.err e => Outcome.err e
  | Outcome.panic p => Outcome.panic p

def getNEVRA (indexEntries : List indexEntry) : Outcome PackageInfo :=
  match nevraLoop indexEntries PackageInfo.zero with
  | Outcome.err e => Outcome.err e
  | Outcome.panic p => Outcome.panic p
  | Outcome.ok pkgInfo =>
    match getFileInfo indexEntries with
    | Outcome.err e => Outcome.err (GoError.wrap "failed to read package files" e)
    | Outcome.panic p => Outcome.panic p
    | Outcome.ok files => Outcome.ok { pkgInfo with Files := files }

/-! ## Entry builders used in the examples -/

/-- An entry with the given tag, declared type, payload and declared length
equal to the payload size; a payload above the allocation limit, which no
slice can hold, is left out. -/
def mkEntry (tag : Int) (typ : Nat) (data : List Byte) : indexEntry :=
  if h : data.length ≤ maxAlloc then
    { Info := { Tag := tag, Typ := typ }, Length := data.length, Data := some data,
      bounded := h }
  else
    { Info := { Tag := tag, Typ := typ }, Length := data.length, Data := none,
      bounded := Nat.zero_le _ }

/-- NUL-terminated encoding of a string array. -/
def nulTerminated (l : List GoString) : List Byte := (l.map (fun s => s ++ [0])).flatten

/-- The join example of the specification: two files in two directories. -/
def joinExample : List indexEntry :=
  [ mkEntry RPMTAG_BASENAMES RPM_STRING_ARRAY_TYPE (nulTerminated [ascii "a.txt", ascii "b.so"]),
    mkEntry RPMTAG_DIRNAMES RPM_STRING_ARRAY_TYPE (nulTerminated [ascii "/usr/", ascii "/lib/"]),
    mkEntry RPMTAG_DIRINDEXES RPM_INT32_TYPE [0, 0, 0, 0, 0, 0, 0, 1],
    mkEntry RPMTAG_FILESIZES RPM_INT32_TYPE [0, 0, 0, 10, 0, 0, 0, 20],
    mkEntry RPMTAG_FILEDIGESTS RPM_STRING_ARRAY_TYPE (nulTerminated [ascii "d1", ascii "d2"]) ]

/-! ## Vocabulary of the specification -/

/-- Tags dispatched by the loop of getNEVRA. -/
def nevraTags : List Int :=
  [RPMTAG_NAME, RPMTAG_EPOCH, RPMTAG_VERSION, RPMTAG_RELEASE, RPMTAG_ARCH, RPMTAG_SOURCERPM,
   RPMTAG_LICENSE, RPMTAG_VENDOR, RPMTAG_SIZE, RPMTAG_FILEDIGESTALGO]

/-- Tags dispatched by the first loop of getFileInfo. -/
def fileTags : List Int :=
  [RPMTAG_FILESIZES, RPMTAG_FILEFLAGS, RPMTAG_FILEDIGESTS, RPMTAG_FILEMODES, RPMTAG_BASENAMES,
   RPMTAG_FILEUSERNAME, RPMTAG_FILEGROUPNAME, RPMTAG_DIRNAMES, RPMTAG_DIRINDEXES]

/-- The nineteen recognized tags. -/
def recognizedTags : List Int := nevraTags ++ fileTags

/-- The schema of the specification: the declared type each recognized tag
must carry; none for a tag that is not recognized. -/
def requiredType (tag : Int) : Option Nat :=
  if tag ∈ [RPMTAG_NAME, RPMTAG_VERSION, RPMTAG_RELEASE, RPMTAG_ARCH, RPMTAG_SOURCERPM,
      RPMTAG_LICENSE, RPMTAG_VENDOR] then some RPM_STRING_TYPE
  else if tag ∈ [RPMTAG_EPOCH, RPMTAG_SIZE, RPMTAG_FILEDIGESTALGO, RPMTAG_FILESIZES,
      RPMTAG_FILEFLAGS, RPMTAG_DIRINDEXES] then some RPM_INT32_TYPE
  else if tag = RPMTAG_FILEMODES then some RPM_INT16_TYPE
  else if tag ∈ [RPMTAG_FILEDIGESTS, RPMTAG_BASENAMES, RPMTAG_FILEUSERNAME,
      RPMTAG_FILEGROUPNAME, RPMTAG_DIRNAMES] then some RPM_STRING_ARRAY_TYPE
  else none

/-- The entry carries a recognized tag and a declared type other than the one
the schema requires. -/
def typeMismatch (e : indexEntry) : Prop :=
  match requiredType e.Info.Tag with
  | some t => e.Info.Typ ≠ t
  | none => False

/-- The entry conforms to the schema: if its tag is recognized, its declared
type is the required one. -/
def wellTyped (e : indexEntry) : Prop :=
  match requiredType e.Info.Tag with
  | some t => e.Info.Typ = t
  | none => True

/-- The declared length n of the entry gives a non-negative element count
n / width (division truncating toward zero) and the payload holds at least
that many elements of the given width. -/
def arrayFits (width : Int) (e : indexEntry) : Prop :=
  0 ≤ e.Length.tdiv width ∧ width * e.Length.tdiv width ≤ (e.bytes.length : Int)

/-- The payload of the entry can be decoded under its tag: four bytes for SIZE
and FILEDIGESTALGO, four bytes or a nil payload for EPOCH, a fitting array for
FILESIZES, FILEFLAGS, DIRINDEXES (width 4) and FILEMODES (width 2); nothing is
asked of the other tags. -/
def decodable (e : indexEntry) : Prop :=
  if e.Info.Tag = RPMTAG_SIZE ∨ e.Info.Tag = RPMTAG_FILEDIGESTALGO then 4 ≤ e.bytes.length
  else if e.Info.Tag = RPMTAG_EPOCH then e.Data = none ∨ 4 ≤ e.bytes.length
  else if e.Info.Tag = RPMTAG_FILESIZES ∨ e.Info.Tag = RPMTAG_FILEFLAGS
      ∨ e.Info.Tag = RPMTAG_DIRINDEXES then arrayFits 4 e
  else if e.Info.Tag = RPMTAG_FILEMODES then arrayFits 2 e
  else True

instance (e : indexEntry) : Decidable (typeMismatch e) := by
  unfold typeMismatch
  split <;> infer_instance

instance (e : indexEntry) : Decidable (wellTyped e) := by
  unfold wellTyped
  split <;> infer_instance

instance (width : Int) (e : indexEntry) : Decidable (arrayFits width e) := by
  unfold arrayFits
  infer_instance

instance (e : indexEntry) : Decidable (decodable e) := by
  unfold decodable
  infer_instance

/-- The scan of getFileInfo panics on the entry: a FILESIZES, FILEFLAGS or
DIRINDEXES entry declared int32, or a FILEMODES entry declared int16, whose
element count (declared length / 4, or / 2) is negative or asks for more bytes
than the allocation limit, so that make panics. -/
def allocationPanics (e : indexEntry) : Prop :=
  ((e.Info.Tag = RPMTAG_FILESIZES ∨ e.Info.Tag = RPMTAG_FILEFLAGS ∨
      e.Info.Tag = RPMTAG_DIRINDEXES) ∧ e.Info.Typ = RPM_INT32_TYPE ∧
    makeslicePanics 4 (e.Length.tdiv 4)) ∨
  (e.Info.Tag = RPMTAG_FILEMODES ∧ e.Info.Typ = RPM_INT16_TYPE ∧
    makeslicePanics 2 (e.Length.tdiv 2))

instance (e : indexEntry) : Decidable (allocationPanics e) := by
  unfold allocationPanics
  infer_instance

/-- The big-endian two's-complement reading of four bytes as a signed 32-bit
integer: the unsigned big-endian value, less 2^32 when the first byte is 128
or more. -/
def signedBigEndian32 (b0 b1 b2 b3 : Byte) : Int :=
  if 128 ≤ b0.val then
    (b0.val * 2 ^ 24 + b1.val * 2 ^ 16 + b2.val * 2 ^ 8 + b3.val : Int) - 2 ^ 32
  else (b0.val * 2 ^ 24 + b1.val * 2 ^ 16 + b2.val * 2 ^ 8 + b3.val : Int)

/-- The unguarded reads of the join stay in range: every file index below the
number of basenames has a directory index, and that index names a directory. -/
def joinInRange (allBasenames : List GoString) (allDirs : List GoString)
    (allDirIndexes : List Int) : Prop :=
  ∀ i, i < allBasenames.length →
    ∃ d, allDirIndexes[i]? = some d ∧ 0 ≤ d ∧ d < (allDirs.length : Int)

/-- The last entry of the sequence carrying the tag, if any. -/
def lastWithTag (tag : Int) : List indexEntry → Option indexEntry
  | [] => none
  | e :: rest =>
    match lastWithTag tag rest with
    | some later => some later
    | none => if e.Info.Tag = tag then some e else none

/-- The result is the payload with all trailing NUL bytes removed and nothing
else changed: the payload is the result followed by NULs only, and the result
does not end in NUL. -/
def IsNulTrimOf (payload result : List Byte) : Prop :=
  (∃ k, payload = result ++ List.replicate k 0) ∧ result.getLast? ≠ some 0

/-- The value a NUL-trimmed identity field must have given the last entry with
its tag: empty without such an entry. -/
def TrimmedFrom (last : Option indexEntry) (field : GoString) : Prop :=
  match last with
  | none => field = []
  | some e => IsNulTrimOf e.bytes field

/-- The value a normalized field must have given the last entry with its tag:
empty without such an entry, empty when the NUL-trimmed payload is "(none)",
the NUL-trimmed payload otherwise. -/
def NormalizedFrom (last : Option indexEntry) (field : GoString) : Prop :=
  match last with
  | none => field = []
  | some e => ∃ t, IsNulTrimOf e.bytes t ∧
      (t = ascii "(none)" → field = []) ∧ (t ≠ ascii "(none)" → field = t)

/-- A FILESIZES entry declaring the length -4, followed by a BASENAMES entry
declared as binary. -/
def negativeLengthThenMismatch : List indexEntry :=
  [ { Info := { Tag := RPMTAG_FILESIZES, Typ := RPM_INT32_TYPE }, Length := -4, Data := none,
      bounded := Nat.zero_le _ },
    mkEntry RPMTAG_BASENAMES RPM_BIN_TYPE [] ]

/-- A FILESIZES entry declaring the length 2^62 with a nil payload, followed
by a BASENAMES entry declared as binary. -/
def hugeLengthThenMismatch : List indexEntry :=
  [ { Info := { Tag := RPMTAG_FILESIZES, Typ := RPM_INT32_TYPE },
      Length := 4611686018427387904, Data := none, bounded := Nat.zero_le _ },
    mkEntry RPMTAG_BASENAMES RPM_BIN_TYPE [] ]

/-- A FILESIZES entry declaring the length -4, followed by a NAME entry
declared as binary. -/
def negativeLengthThenNameMismatch : List indexEntry :=
  [ { Info := { Tag := RPMTAG_FILESIZES, Typ := RPM_INT32_TYPE }, Length := -4, Data := none,
      bounded := Nat.zero_le _ },
    mkEntry RPMTAG_NAME RPM_BIN_TYPE [] ]

/-- A single SIZE entry, declared int32, with a payload of two bytes. -/
def shortSizeEntry : List indexEntry := [mkEntry RPMTAG_SIZE RPM_INT32_TYPE [0, 1]]

/-- Element i of an optional per-file array when the array was collected and
has more than i elements, the zero value otherwise. -/
def optionalAt {α : Type} (arr : Option (List α)) (i : Nat) (zero : α) : α :=
  ((arr.getD [])[i]?).getD zero

/-- The slices collected from the join example. -/
def joinExampleArrays : FileArrays :=
  { allBasenames := some [ascii "a.txt", ascii "b.so"],
    allDirs := some [ascii "/usr/", ascii "/lib/"],
    allDirIndexes := some [0, 1],
    allFileDigests := some [ascii "d1", ascii "d2"],
    allFileModes := none,
    allFileSizes := some [10, 20],
    allFileFlags := none,
    allUserNames := none,
    allGroupNames := none }

/-- The file records of the join example. -/
def joinExampleFiles : List FileInfo :=
  [ { Path := ascii "/usr/a.txt", Mode := 0, Digest := ascii "d1", Size := 10,
      Username := [], Groupname := [], Flags := 0 },
    { Path := ascii "/lib/b.so", Mode := 0, Digest := ascii "d2", Size := 20,
      Username := [], Groupname := [], Flags := 0 } ]

/-- A header with the identity fields of a package, NUL-terminated. -/
def identityExample : List indexEntry :=
  [ mkEntry RPMTAG_NAME RPM_STRING_TYPE (ascii "bash" ++ [0]),
    mkEntry RPMTAG_VERSION RPM_STRING_TYPE (ascii "5.1" ++ [0, 0]),
    mkEntry RPMTAG_RELEASE RPM_STRING_TYPE (ascii "2" ++ [0] ++ ascii "el9" ++ [0]),
    mkEntry RPMTAG_NAME RPM_STRING_TYPE (ascii "zsh" ++ [0]) ]

/-- A header with a single EPOCH entry whose payload is four zero bytes. -/
def zeroEpochExample : List indexEntry :=
  [ mkEntry RPMTAG_NAME RPM_STRING_TYPE (ascii "bash" ++ [0]),
    mkEntry RPMTAG_EPOCH RPM_INT32_TYPE [0, 0, 0, 0] ]

/-- A header whose SOURCERPM is "(none)", whose LICENSE is "(None)" and whose
VENDOR is "(none) " with a trailing blank. -/
def normalizationExample : List indexEntry :=
  [ mkEntry RPMTAG_SOURCERPM RPM_STRING_TYPE (ascii "(none)" ++ [0]),
    mkEntry RPMTAG_LICENSE RPM_STRING_TYPE (ascii "(None)" ++ [0]),
    mkEntry RPMTAG_VENDOR RPM_STRING_TYPE (ascii "(none) " ++ [0]) ]

/-- A NAME entry declared as binary, after a well-formed VERSION entry. -/
def binaryNameExample : List indexEntry :=
  [ mkEntry RPMTAG_VERSION RPM_STRING_TYPE (ascii "5.1" ++ [0]),
    mkEntry RPMTAG_NAME RPM_BIN_TYPE (ascii "bash" ++ [0]) ]

/-- The join example without its DIRINDEXES entry. -/
def noDirIndexesExample : List indexEntry :=
  [ mkEntry RPMTAG_BASENAMES RPM_STRING_ARRAY_TYPE (nulTerminated [ascii "a.txt", ascii "b.so"]),
    mkEntry RPMTAG_DIRNAMES RPM_STRING_ARRAY_TYPE (nulTerminated [ascii "/usr/", ascii "/lib/"]),
    mkEntry RPMTAG_FILESIZES RPM_INT32_TYPE [0, 0, 0, 10, 0, 0, 0, 20] ]

/-- An entry with a tag outside the schema (5096, the modularity label),
declared as binary with a declared length unrelated to its payload. -/
def unmatchedEntry : indexEntry :=
  { Info := { Tag := 5096, Typ := RPM_BIN_TYPE }, Length := -8, Data := some [1, 2, 3],
    bounded := by decide }

/-- The descriptor extracted from the identity example: the later NAME entry
wins, and the NUL inside the RELEASE payload is kept. -/
def identityExampleInfo : PackageInfo :=
  { PackageInfo.zero with
    Name := ascii "zsh", Version := ascii "5.1",
    Release := ascii "2" ++ [0] ++ ascii "el9" }

/-- The descriptor extracted from the zero-epoch example. -/
def zeroEpochExampleInfo : PackageInfo :=
  { PackageInfo.zero with Epoch := some 0, Name := ascii "bash" }

/-- The EPOCH entry with the payload ff ff ff fe. -/
def negativeEpochEntry : indexEntry := mkEntry RPMTAG_EPOCH RPM_INT32_TYPE [255, 255, 255, 254]

/-- A header with a single EPOCH entry whose payload is ff ff ff fe. -/
def negativeEpochExample : List indexEntry :=
  [ mkEntry RPMTAG_NAME RPM_STRING_TYPE (ascii "bash" ++ [0]), negativeEpochEntry ]

/-- The descriptor extracted from the negative-epoch example. -/
def negativeEpochExampleInfo : PackageInfo :=
  { PackageInfo.zero with Epoch := some (-2), Name := ascii "bash" }

/-- The descriptor extracted from the normalization example. -/
def normalizationExampleInfo : PackageInfo :=
  { PackageInfo.zero with License := ascii "(None)", Vendor := ascii "(none) " }

/-! ## Vocabulary of the specification: success and failure of an entry -/

/-- The conditions the specification puts on one entry for extraction to
succeed: the required declared type; at least four payload bytes for SIZE and
FILEDIGESTALGO and for a present EPOCH payload; for FILESIZES, FILEFLAGS and
DIRINDEXES a non-negative declared length n and at least 4 * (n / 4) payload
bytes; for FILEMODES a non-negative declared length n and at least
2 * (n / 2) payload bytes. -/
def meetsSuccessCondition (e : indexEntry) : Prop :=
  wellTyped e ∧
  (e.Info.Tag = RPMTAG_SIZE ∨ e.Info.Tag = RPMTAG_FILEDIGESTALGO → 4 ≤ e.bytes.length) ∧
  (e.Info.Tag = RPMTAG_EPOCH → e.Data = none ∨ 4 ≤ e.bytes.length) ∧
  (e.Info.Tag = RPMTAG_FILESIZES ∨ e.Info.Tag = RPMTAG_FILEFLAGS ∨
      e.Info.Tag = RPMTAG_DIRINDEXES →
    0 ≤ e.Length ∧ 4 * (e.Length / 4) ≤ (e.bytes.length : Int)) ∧
  (e.Info.Tag = RPMTAG_FILEMODES →
    0 ≤ e.Length ∧ 2 * (e.Length / 2) ≤ (e.bytes.length : Int))

instance (e : indexEntry) : Decidable (meetsSuccessCondition e) := by
  unfold meetsSuccessCondition
  infer_instance

/-- The error the scan of getNEVRA raises for the entry, if it raises one. -/
def nevraEntryError (e : indexEntry) : Option GoError :=
  match nevraStep PackageInfo.zero e with
  | Outcome.err x => some x
  | _ => none

/-- The error the scan of getFileInfo raises for the entry, if it raises
one. -/
def fileEntryError (e : indexEntry) : Option GoError :=
  match fileStep FileArrays.zero e with
  | Outcome.err x => some x
  | _ => none

/-- The entry passes the scan of getFileInfo: no error and no panic. -/
def filePasses (e : indexEntry) : Prop :=
  ∃ a, fileStep FileArrays.zero e = Outcome.ok a

instance (e : indexEntry) : Decidable (filePasses e) :=
  match h : fileStep FileArrays.zero e with
  | Outcome.ok a => isTrue ⟨a, h⟩
  | Outcome.err x => isFalse (fun ⟨a, ha⟩ => by rw [h] at ha; cases ha)
  | Outcome.panic q => isFalse (fun ⟨a, ha⟩ => by rw [h] at ha; cases ha)

/-- A BASENAMES entry declared as binary followed by a NAME entry declared as
binary. -/
def fileThenNevraMismatch : List indexEntry :=
  [ mkEntry RPMTAG_BASENAMES RPM_BIN_TYPE [], mkEntry RPMTAG_NAME RPM_BIN_TYPE [] ]

/-- The join example with a third basename and no directory index for it. -/
def shortDirIndexesExample : List indexEntry :=
  [ mkEntry RPMTAG_BASENAMES RPM_STRING_ARRAY_TYPE
      (nulTerminated [ascii "a.txt", ascii "b.so", ascii "c"]),
    mkEntry RPMTAG_DIRNAMES RPM_STRING_ARRAY_TYPE (nulTerminated [ascii "/usr/", ascii "/lib/"]),
    mkEntry RPMTAG_DIRINDEXES RPM_INT32_TYPE [0, 0, 0, 0, 0, 0, 0, 1] ]

/-- The slices collected from the example with a missing directory index. -/
def shortDirIndexesArrays : FileArrays :=
  { FileArrays.zero with
    allBasenames := some [ascii "a.txt", ascii "b.so", ascii "c"],
    allDirs := some [ascii "/usr/", ascii "/lib/"],
    allDirIndexes := some [0, 1] }

/-! ## Vocabulary of the specification: the entry that determines a field -/

/-- The entry writes the field of its tag when the scan reaches it: every
entry does, except an EPOCH entry with a nil payload, which the guard on
ie.Data skips. -/
def writes (e : indexEntry) : Bool :=
  !(decide (e.Info.Tag = RPMTAG_EPOCH) && decide (e.Data = none))

/-- The entry carries the tag and writes its field. -/
def writerOf (t : Int) (e : indexEntry) : Bool := decide (e.Info.Tag = t) && writes e

/-- The last entry of the sequence that writes the field of the tag. -/
def lastWrite (t : Int) (es : List indexEntry) : Option indexEntry :=
  (es.filter (writerOf t)).getLast?

/-- The sequence in which, for each recognized tag, only its last occurrence
is kept; entries with other tags stay. -/
def keepLast : List indexEntry → List indexEntry
  | [] => []
  | e :: rest =>
    if e.Info.Tag ∈ recognizedTags ∧ (∃ x ∈ rest, x.Info.Tag = e.Info.Tag) then keepLast rest
    else e :: keepLast rest

/-- The sequence in which EPOCH entries with a nil payload are dropped and,
for each recognized tag, only the last remaining occurrence is kept; entries
with other tags stay. -/
def keepLastWrites : List indexEntry → List indexEntry
  | [] => []
  | e :: rest =>
    if e.Info.Tag ∈ recognizedTags ∧
        (writes e = false ∨ ∃ x ∈ rest, writerOf e.Info.Tag x = true) then
      keepLastWrites rest
    else e :: keepLastWrites rest

/-- The value an EPOCH entry with a present payload writes. -/
def epochOf (e : indexEntry) : Option Int :=
  match parseInt32 e.bytes with
  | Outcome.ok v => some v
  | _ => none

/-- The value a SIZE or FILEDIGESTALGO entry writes. -/
def int32Of (e : indexEntry) : Int :=
  match binaryReadInt32 e.bytes with
  | Outcome.ok v => v
  | _ => 0

/-- The slice a FILESIZES, FILEFLAGS or DIRINDEXES entry writes. -/
def int32ArrayOf (e : indexEntry) : Option (List Int) :=
  match parseInt32Array e.bytes e.Length with
  | Outcome.ok v => some v
  | _ => none

/-- The slice a FILEMODES entry writes. -/
def uint16ArrayOf (e : indexEntry) : Option (List Nat) :=
  match parseUInt16Array e.bytes e.Length with
  | Outcome.ok v => some v
  | _ => none

/-- An EPOCH entry with the payload 5 followed by an EPOCH entry with a nil
payload. -/
def epochThenNilEpoch : List indexEntry :=
  [ mkEntry RPMTAG_EPOCH RPM_INT32_TYPE [0, 0, 0, 5],
    { Info := { Tag := RPMTAG_EPOCH, Typ := RPM_INT32_TYPE }, Length := 0, Data := none,
      bounded := Nat.zero_le _ } ]

end rpmdb

/-! ## Properties: the scan of getNEVRA -/

namespace rpmdb

theorem nevraTag_cases (t : Int) :
    t = RPMTAG_NAME ∨ t = RPMTAG_EPOCH ∨ t = RPMTAG_VERSION ∨ t = RPMTAG_RELEASE ∨
    t = RPMTAG_ARCH ∨ t = RPMTAG_SOURCERPM ∨ t = RPMTAG_LICENSE ∨ t = RPMTAG_VENDOR ∨
    t = RPMTAG_SIZE ∨ t = RPMTAG_FILEDIGESTALGO ∨
    (t ≠ RPMTAG_NAME ∧ t ≠ RPMTAG_EPOCH ∧ t ≠ RPMTAG_VERSION ∧ t ≠ RPMTAG_RELEASE ∧
     t ≠ RPMTAG_ARCH ∧ t ≠ RPMTAG_SOURCERPM ∧ t ≠ RPMTAG_LICENSE ∧ t ≠ RPMTAG_VENDOR ∧
     t ≠ RPMTAG_SIZE ∧ t ≠ RPMTAG_FILEDIGESTALGO) := by
  omega

theorem fileTag_cases (t : Int) :
    t = RPMTAG_FILESIZES ∨ t = RPMTAG_FILEFLAGS ∨ t = RPMTAG_FILEDIGESTS ∨
    t = RPMTAG_FILEMODES ∨ t = RPMTAG_BASENAMES ∨ t = RPMTAG_FILEUSERNAME ∨
    t = RPMTAG_FILEGROUPNAME ∨ t = RPMTAG_DIRNAMES ∨ t = RPMTAG_DIRINDEXES ∨
    (t ≠ RPMTAG_FILESIZES ∧ t ≠ RPMTAG_FILEFLAGS ∧ t ≠ RPMTAG_FILEDIGESTS ∧
     t ≠ RPMTAG_FILEMODES ∧ t ≠ RPMTAG_BASENAMES ∧ t ≠ RPMTAG_FILEUSERNAME ∧
     t ≠ RPMTAG_FILEGROUPNAME ∧ t ≠ RPMTAG_DIRNAMES ∧ t ≠ RPMTAG_DIRINDEXES) := by
  omega

theorem binaryReadInt32_ne_panic (data : List Byte) (q : RuntimePanic) :
    binaryReadInt32 data ≠ Outcome.panic q := by
  unfold binaryReadInt32
  split <;> simp

theorem binaryReadInt32_short (data : List Byte) (h : data.length < 4) :
    binaryReadInt32 data = Outcome.err (shortRead data) := by
  unfold binaryReadInt32
  split
  · simp at h
    omega
  · rfl

theorem binaryReadInt32_long (data : List Byte) (h : 4 ≤ data.length) :
    ∃ v, binaryReadInt32 data = Outcome.ok v := by
  match data, h with
  | b0 :: b1 :: b2 :: b3 :: rest, _ => exact ⟨_, rfl⟩

theorem parseInt32_ne_panic (data : List Byte) (q : RuntimePanic) :
    parseInt32 data ≠ Outcome.panic q := by
  unfold parseInt32
  have := binaryReadInt32_ne_panic data
  split <;> simp_all

theorem parseInt32_short (data : List Byte) (h : data.length < 4) :
    parseInt32 data = Outcome.err (GoError.wrap "failed to read binary" (shortRead data)) := by
  simp [parseInt32, binaryReadInt32_short data h]

theorem parseInt32_long (data : List Byte) (h : 4 ≤ data.length) :
    ∃ v, parseInt32 data = Outcome.ok v := by
  obtain ⟨v, hv⟩ := binaryReadInt32_long data h
  exact ⟨v, by simp [parseInt32, hv]⟩

theorem parseInt32_ok {data : List Byte} {v : Int} (h : parseInt32 data = Outcome.ok v) :
    ∃ b0 b1 b2 b3 rest, data = b0 :: b1 :: b2 :: b3 :: rest ∧
      v = asInt32 (beUint32 b0 b1 b2 b3) := by
  by_cases hl : data.length < 4
  · rw [parseInt32_short data hl] at h
    cases h
  · match data, hl with
    | b0 :: b1 :: b2 :: b3 :: rest, _ =>
      simp [parseInt32, binaryReadInt32] at h
      exact ⟨b0, b1, b2, b3, rest, rfl, h.symm⟩
    | [], hl => simp at hl
    | [_], hl => simp at hl
    | [_, _], hl => simp at hl
    | [_, _, _], hl => simp at hl

theorem nevraStep_ne_panic (p : PackageInfo) (e : indexEntry) (q : RuntimePanic) :
    nevraStep p e ≠ Outcome.panic q := by
  have h1 := binaryReadInt32_ne_panic e.bytes
  have h2 := parseInt32_ne_panic
  rcases nevraTag_cases e.Info.Tag with h | h | h | h | h | h | h | h | h | h | h <;>
    simp [nevraStep, h] <;> (repeat' split) <;> (try simp_all)

theorem nevraStep_skip (p : PackageInfo) (e : indexEntry) (h : e.Info.Tag ∉ nevraTags) :
    nevraStep p e = Outcome.ok p := by
  simp [nevraTags] at h
  simp [nevraStep, h]

theorem nevraStep_ok_fields {p0 p1 : PackageInfo} {e : indexEntry}
    (hs : nevraStep p0 e = Outcome.ok p1) :
    p1.Name = (if e.Info.Tag = RPMTAG_NAME then trimRightNul e.bytes else p0.Name) ∧
    p1.Version = (if e.Info.Tag = RPMTAG_VERSION then trimRightNul e.bytes else p0.Version) ∧
    p1.Release = (if e.Info.Tag = RPMTAG_RELEASE then trimRightNul e.bytes else p0.Release) ∧
    p1.Arch = (if e.Info.Tag = RPMTAG_ARCH then trimRightNul e.bytes else p0.Arch) ∧
    p1.SourceRpm = (if e.Info.Tag = RPMTAG_SOURCERPM then dropNone (trimRightNul e.bytes)
      else p0.SourceRpm) ∧
    p1.License = (if e.Info.Tag = RPMTAG_LICENSE then dropNone (trimRightNul e.bytes)
      else p0.License) ∧
    p1.Vendor = (if e.Info.Tag = RPMTAG_VENDOR then dropNone (trimRightNul e.bytes)
      else p0.Vendor) ∧
    p1.Files = p0.Files := by
  rcases nevraTag_cases e.Info.Tag with h | h | h | h | h | h | h | h | h | h | h <;>
    simp [nevraStep, h] at hs ⊢ <;> (repeat' split at hs) <;> (try simp_all) <;>
    (try subst hs) <;> (try simp)

theorem nevraStep_ok_epoch {p0 p1 : PackageInfo} {e : indexEntry}
    (hs : nevraStep p0 e = Outcome.ok p1) :
    (e.Info.Tag ≠ RPMTAG_EPOCH → p1.Epoch = p0.Epoch) ∧
    (e.Info.Tag = RPMTAG_EPOCH → e.Data = none → p1.Epoch = p0.Epoch) ∧
    (e.Info.Tag = RPMTAG_EPOCH → ∀ data, e.Data = some data →
      ∃ b0 b1 b2 b3 rest, data = b0 :: b1 :: b2 :: b3 :: rest ∧
        p1.Epoch = some (asInt32 (beUint32 b0 b1 b2 b3))) := by
  rcases nevraTag_cases e.Info.Tag with h | h | h | h | h | h | h | h | h | h | h <;>
    simp [nevraStep, h] at hs ⊢ <;> (repeat' split at hs) <;> (try simp_all) <;>
    (try subst hs) <;> (try simp)
  rename_i hp
  obtain ⟨b0, b1, b2, b3, rest, hd, hv⟩ := parseInt32_ok hp
  exact ⟨b0, b1, b2, b3, ⟨rest, hd⟩, hv⟩

theorem nevraStep_mismatch (p : PackageInfo) (e : indexEntry) (hm : typeMismatch e)
    (ht : e.Info.Tag ∈ nevraTags) : ∃ x, nevraStep p e = Outcome.err x := by
  rcases nevraTag_cases e.Info.Tag with h | h | h | h | h | h | h | h | h | h | h
  all_goals first
    | (simp [nevraTags] at ht; omega)
    | (simp [typeMismatch, requiredType, h] at hm; simp [nevraStep, h, hm])

theorem requiredType_none {t : Int} (h1 : t ∉ nevraTags) (h2 : t ∉ fileTags) :
    requiredType t = none := by
  simp [nevraTags] at h1
  simp [fileTags] at h2
  simp [requiredType, h1, h2]

theorem typeMismatch_tag {e : indexEntry} (hm : typeMismatch e) :
    e.Info.Tag ∈ nevraTags ∨ e.Info.Tag ∈ fileTags := by
  by_contra hc
  push_neg at hc
  simp [typeMismatch, requiredType_none hc.1 hc.2] at hm

/-- A SIZE or FILEDIGESTALGO entry declared int32 with fewer than four payload
bytes, or an EPOCH entry declared int32 with a non-nil payload of fewer than
four bytes. -/
theorem nevraStep_truncated (p : PackageInfo) (e : indexEntry)
    (h : (e.Info.Tag = RPMTAG_SIZE ∧ e.bytes.length < 4) ∨
         (e.Info.Tag = RPMTAG_FILEDIGESTALGO ∧ e.bytes.length < 4) ∨
         (e.Info.Tag = RPMTAG_EPOCH ∧ ∃ data, e.Data = some data ∧ data.length < 4)) :
    ∃ x, nevraStep p e = Outcome.err x := by
  rcases h with ⟨h, hl⟩ | ⟨h, hl⟩ | ⟨h, data, hd, hl⟩
  · simp only [nevraStep, h, binaryReadInt32_short _ hl]
    simp
    split <;> simp
  · simp only [nevraStep, h, binaryReadInt32_short _ hl]
    simp
    split <;> simp
  · simp only [nevraStep, h, hd, parseInt32_short _ hl]
    simp
    split <;> simp

theorem nevraStep_ok_of_conforming (p : PackageInfo) (e : indexEntry) (hw : wellTyped e)
    (hd : decodable e) : ∃ p1, nevraStep p e = Outcome.ok p1 := by
  rcases nevraTag_cases e.Info.Tag with h | h | h | h | h | h | h | h | h | h | h
  all_goals simp [wellTyped, requiredType, h] at hw
  all_goals simp [decodable, h] at hd
  all_goals simp [nevraStep, h, hw]
  · cases hdat : e.Data with
    | none => simp
    | some data =>
      simp [indexEntry.bytes, hdat] at hd
      obtain ⟨v, hv⟩ := parseInt32_long data hd
      simp [hv]
  · obtain ⟨v, hv⟩ := binaryReadInt32_long _ hd
    simp [hv]
  · obtain ⟨v, hv⟩ := binaryReadInt32_long _ hd
    simp [hv]

/-! ### The loop -/

theorem nevraLoop_append (xs ys : List indexEntry) (p : PackageInfo) :
    nevraLoop (xs ++ ys) p =
      match nevraLoop xs p with
      | Outcome.ok q => nevraLoop ys q
      | Outcome.err x => Outcome.err x
      | Outcome.panic q => Outcome.panic q := by
  induction xs generalizing p with
  | nil => simp [nevraLoop]
  | cons e xs ih =>
    simp only [List.cons_append, nevraLoop]
    cases nevraStep p e with
    | ok q => simp [ih]
    | err x => simp
    | panic q => simp

theorem nevraLoop_ne_panic (es : List indexEntry) (p : PackageInfo) (q : RuntimePanic) :
    nevraLoop es p ≠ Outcome.panic q := by
  induction es generalizing p with
  | nil => simp [nevraLoop]
  | cons e es ih =>
    simp only [nevraLoop]
    cases hs : nevraStep p e with
    | ok p1 => simpa using ih p1
    | err x => simp
    | panic q1 => exact absurd hs (nevraStep_ne_panic p e q1)

theorem nevraLoop_err_of_mem (es : List indexEntry) (e : indexEntry) (he : e ∈ es)
    (hbad : ∀ p, ∃ x, nevraStep p e = Outcome.err x) (p : PackageInfo) :
    ∃ x, nevraLoop es p = Outcome.err x := by
  induction es generalizing p with
  | nil => simp at he
  | cons a es ih =>
    simp only [nevraLoop]
    cases hs : nevraStep p a with
    | panic q1 => exact absurd hs (nevraStep_ne_panic p a q1)
    | err x => exact ⟨x, rfl⟩
    | ok p1 =>
      rcases List.mem_cons.mp he with rfl | hmem
      · obtain ⟨x, hx⟩ := hbad p
        rw [hx] at hs
        cases hs
      · simpa using ih hmem p1

theorem nevraLoop_ok_of_forall (es : List indexEntry)
    (hgood : ∀ e ∈ es, ∀ p, ∃ p1, nevraStep p e = Outcome.ok p1) (p : PackageInfo) :
    ∃ q, nevraLoop es p = Outcome.ok q := by
  induction es generalizing p with
  | nil => exact ⟨p, rfl⟩
  | cons a es ih =>
    obtain ⟨p1, h1⟩ := hgood a (List.mem_cons_self _ _) p
    simp only [nevraLoop, h1]
    exact ih (fun e he => hgood e (List.mem_cons_of_mem _ he)) p1

/-! ## Properties: the scan of getFileInfo -/

theorem parseInt32Array_eq (data : List Byte) (n : Int)
    (h : ¬ makeslicePanics 4 (n.tdiv 4)) :
    parseInt32Array data n =
      if data.length < 4 * (n.tdiv 4).toNat then
        Outcome.err (GoError.wrap "failed to read binary" (shortRead data))
      else Outcome.ok (decodeInt32s (data.take (4 * (n.tdiv 4).toNat))) := by
  simp only [parseInt32Array, sizeOfInt32, h, if_false, binaryReadInt32Slice]
  split_ifs <;> rfl

theorem parseUInt16Array_eq (data : List Byte) (n : Int)
    (h : ¬ makeslicePanics 2 (n.tdiv 2)) :
    parseUInt16Array data n =
      if data.length < 2 * (n.tdiv 2).toNat then
        Outcome.err (GoError.wrap "failed to read binary" (shortRead data))
      else Outcome.ok (decodeUint16s (data.take (2 * (n.tdiv 2).toNat))) := by
  simp only [parseUInt16Array, sizeOfUInt16, h, if_false, binaryReadUint16Slice]
  split_ifs <;> rfl

theorem parseInt32Array_panic (data : List Byte) (n : Int)
    (h : makeslicePanics 4 (n.tdiv 4)) :
    parseInt32Array data n = Outcome.panic RuntimePanic.makesliceLen := by
  simp only [parseInt32Array, sizeOfInt32, h, if_true]

theorem parseUInt16Array_panic (data : List Byte) (n : Int)
    (h : makeslicePanics 2 (n.tdiv 2)) :
    parseUInt16Array data n = Outcome.panic RuntimePanic.makesliceLen := by
  simp only [parseUInt16Array, sizeOfUInt16, h, if_true]

theorem parseInt32Array_ne_panic (data : List Byte) (n : Int)
    (h : ¬ makeslicePanics 4 (n.tdiv 4)) (q : RuntimePanic) :
    parseInt32Array data n ≠ Outcome.panic q := by
  rw [parseInt32Array_eq data n h]
  split_ifs <;> simp

theorem parseUInt16Array_ne_panic (data : List Byte) (n : Int)
    (h : ¬ makeslicePanics 2 (n.tdiv 2)) (q : RuntimePanic) :
    parseUInt16Array data n ≠ Outcome.panic q := by
  rw [parseUInt16Array_eq data n h]
  split_ifs <;> simp

theorem bytes_length_le (e : indexEntry) : e.bytes.length ≤ maxAlloc := e.bounded

theorem not_makeslicePanics_of_fits {w : Int} {e : indexEntry} (h : arrayFits w e) :
    ¬ makeslicePanics w (e.Length.tdiv w) := by
  obtain ⟨h0, h1⟩ := h
  have hb := bytes_length_le e
  unfold makeslicePanics
  omega

theorem parseInt32Array_ok_of_fits (e : indexEntry) (h : arrayFits 4 e) :
    ∃ v, parseInt32Array e.bytes e.Length = Outcome.ok v := by
  rw [parseInt32Array_eq _ _ (not_makeslicePanics_of_fits h)]
  obtain ⟨h0, h1⟩ := h
  have : ¬ e.bytes.length < 4 * (e.Length.tdiv 4).toNat := by omega
  simp [this]

theorem parseUInt16Array_ok_of_fits (e : indexEntry) (h : arrayFits 2 e) :
    ∃ v, parseUInt16Array e.bytes e.Length = Outcome.ok v := by
  rw [parseUInt16Array_eq _ _ (not_makeslicePanics_of_fits h)]
  obtain ⟨h0, h1⟩ := h
  have : ¬ e.bytes.length < 2 * (e.Length.tdiv 2).toNat := by omega
  simp [this]

theorem fileStep_skip (a : FileArrays) (e : indexEntry) (h : e.Info.Tag ∉ fileTags) :
    fileStep a e = Outcome.ok a := by
  simp [fileTags] at h
  simp [fileStep, h]

theorem fileStep_mismatch (a : FileArrays) (e : indexEntry) (hm : typeMismatch e)
    (ht : e.Info.Tag ∈ fileTags) : ∃ x, fileStep a e = Outcome.err x := by
  rcases fileTag_cases e.Info.Tag with h | h | h | h | h | h | h | h | h | h
  all_goals first
    | (simp [fileTags] at ht; omega)
    | (simp [typeMismatch, requiredType, h] at hm; simp [fileStep, h, hm])

/-- The step of the first loop of getFileInfo panics only in the allocation
of an array decoder. -/
theorem fileStep_ne_panic (a : FileArrays) (e : indexEntry) (q : RuntimePanic)
    (hno : ¬ allocationPanics e) : fileStep a e ≠ Outcome.panic q := by
  rcases fileTag_cases e.Info.Tag with h | h | h | h | h | h | h | h | h | h
  all_goals simp [allocationPanics, h] at hno
  all_goals simp [fileStep, h]
  all_goals (repeat' split) <;> (try simp)
  all_goals first
    | (rename_i ht _ _ hp; exact absurd hp (parseInt32Array_ne_panic _ _ (hno ht) _))
    | (rename_i ht _ _ hp; exact absurd hp (parseUInt16Array_ne_panic _ _ (hno ht) _))

theorem fileStep_ok_of_conforming (a : FileArrays) (e : indexEntry) (hw : wellTyped e)
    (hd : decodable e) : ∃ a1, fileStep a e = Outcome.ok a1 := by
  rcases fileTag_cases e.Info.Tag with h | h | h | h | h | h | h | h | h | h
  all_goals simp [wellTyped, requiredType, h] at hw
  all_goals simp [decodable, h] at hd
  all_goals simp [fileStep, h, hw]
  · obtain ⟨v, hv⟩ := parseInt32Array_ok_of_fits e hd
    simp [hv]
  · obtain ⟨v, hv⟩ := parseInt32Array_ok_of_fits e hd
    simp [hv]
  · obtain ⟨v, hv⟩ := parseUInt16Array_ok_of_fits e hd
    simp [hv]
  · obtain ⟨v, hv⟩ := parseInt32Array_ok_of_fits e hd
    simp [hv]


theorem fileStep_ok_dirs {a a1 : FileArrays} {e : indexEntry}
    (hs : fileStep a e = Outcome.ok a1) :
    (e.Info.Tag ≠ RPMTAG_DIRNAMES → a1.allDirs = a.allDirs) ∧
    (e.Info.Tag ≠ RPMTAG_DIRINDEXES → a1.allDirIndexes = a.allDirIndexes) := by
  rcases fileTag_cases e.Info.Tag with h | h | h | h | h | h | h | h | h | h <;>
    simp [fileStep, h] at hs ⊢ <;> (repeat' split at hs) <;> (try simp_all) <;>
    (try subst hs) <;> (try simp)

theorem fileLoop_append (xs ys : List indexEntry) (a : FileArrays) :
    fileLoop (xs ++ ys) a =
      match fileLoop xs a with
      | Outcome.ok b => fileLoop ys b
      | Outcome.err x => Outcome.err x
      | Outcome.panic q => Outcome.panic q := by
  induction xs generalizing a with
  | nil => simp [fileLoop]
  | cons e xs ih =>
    simp only [List.cons_append, fileLoop]
    cases fileStep a e with
    | ok b => simp [ih]
    | err x => simp
    | panic q => simp

theorem fileLoop_ok_of_forall (es : List indexEntry)
    (hgood : ∀ e ∈ es, ∀ a, ∃ a1, fileStep a e = Outcome.ok a1) (a : FileArrays) :
    ∃ b, fileLoop es a = Outcome.ok b := by
  induction es generalizing a with
  | nil => exact ⟨a, rfl⟩
  | cons e es ih =>
    obtain ⟨a1, h1⟩ := hgood e (List.mem_cons_self _ _) a
    simp only [fileLoop, h1]
    exact ih (fun e1 he => hgood e1 (List.mem_cons_of_mem _ he)) a1

theorem fileLoop_ok_dirs (es : List indexEntry) (a b : FileArrays)
    (h : fileLoop es a = Outcome.ok b) :
    ((∀ e ∈ es, e.Info.Tag ≠ RPMTAG_DIRNAMES) → b.allDirs = a.allDirs) ∧
    ((∀ e ∈ es, e.Info.Tag ≠ RPMTAG_DIRINDEXES) → b.allDirIndexes = a.allDirIndexes) := by
  induction es generalizing a with
  | nil =>
    simp only [fileLoop, Outcome.ok.injEq] at h
    subst h
    simp
  | cons e es ih =>
    simp only [fileLoop] at h
    cases hs : fileStep a e with
    | panic q1 => simp [hs] at h
    | err x => simp [hs] at h
    | ok a1 =>
      simp only [hs] at h
      obtain ⟨i1, i2⟩ := ih a1 h
      obtain ⟨s1, s2⟩ := fileStep_ok_dirs hs
      constructor
      · intro hall
        rw [i1 (fun e1 h1 => hall e1 (List.mem_cons_of_mem _ h1)),
          s1 (hall e (List.mem_cons_self _ _))]
      · intro hall
        rw [i2 (fun e1 h1 => hall e1 (List.mem_cons_of_mem _ h1)),
          s2 (hall e (List.mem_cons_self _ _))]

/-! ## Properties: the join -/

theorem indexAt_eq_ok {xs : List Int} {i : Nat} {d : Int} :
    indexAt xs i = Outcome.ok d ↔ xs[i]? = some d := by
  unfold indexAt
  cases xs[i]? <;> simp

theorem dirAt_eq_ok {xs : List GoString} {d : Int} {dir : GoString} :
    dirAt xs d = Outcome.ok dir ↔ 0 ≤ d ∧ xs[d.toNat]? = some dir := by
  unfold dirAt
  by_cases hd : d < 0
  · simp [hd]
  · have : 0 ≤ d := by omega
    simp only [hd, if_false, this, true_and]
    cases xs[d.toNat]? <;> simp

/-- The record appended by the body of the second loop of getFileInfo at file
index i, once the directory has been read. -/
theorem joinLoop_cons (a : FileArrays) (dirs : List GoString) (idx : List Int) (i : Nat)
    (file : GoString) (rest : List GoString) (files : List FileInfo) (d : Int)
    (dir : GoString) (hd : idx[i]? = some d) (h0 : 0 ≤ d) (hdir : dirs[d.toNat]? = some dir) :
    joinLoop a dirs idx i (file :: rest) files =
      joinLoop a dirs idx (i + 1) rest (files ++ [
        { Path := dir ++ file, Mode := guardedAt a.allFileModes i 0,
          Digest := guardedAt a.allFileDigests i [], Size := guardedAt a.allFileSizes i 0,
          Username := guardedAt a.allUserNames i [],
          Groupname := guardedAt a.allGroupNames i [],
          Flags := guardedAt a.allFileFlags i 0 }]) := by
  have h1 : indexAt idx i = Outcome.ok d := indexAt_eq_ok.mpr hd
  have h2 : dirAt dirs d = Outcome.ok dir := dirAt_eq_ok.mpr ⟨h0, hdir⟩
  simp only [joinLoop, h1, h2]

theorem joinLoop_ok_inv (a : FileArrays) (dirs : List GoString) (idx : List Int) (i : Nat)
    (file : GoString) (rest : List GoString) (files out : List FileInfo)
    (h : joinLoop a dirs idx i (file :: rest) files = Outcome.ok out) :
    ∃ d dir, idx[i]? = some d ∧ 0 ≤ d ∧ dirs[d.toNat]? = some dir := by
  simp only [joinLoop] at h
  cases h1 : indexAt idx i with
  | err x => simp [h1] at h
  | panic q => simp [h1] at h
  | ok d =>
    cases h2 : dirAt dirs d with
    | err x => simp [h1, h2] at h
    | panic q => simp [h1, h2] at h
    | ok dir =>
      exact ⟨d, dir, indexAt_eq_ok.mp h1, (dirAt_eq_ok.mp h2).1, (dirAt_eq_ok.mp h2).2⟩

/-- The record built for file index i from the directory read for it. -/
theorem joinLoop_spec (a : FileArrays) (dirs : List GoString) (idx : List Int)
    (rest : List GoString) (i : Nat) (files out : List FileInfo)
    (h : joinLoop a dirs idx i rest files = Outcome.ok out) :
    ∃ recs, out = files ++ recs ∧ recs.length = rest.length ∧
      ∀ j, j < rest.length → ∃ d dir file, idx[i + j]? = some d ∧ 0 ≤ d ∧
        dirs[d.toNat]? = some dir ∧ rest[j]? = some file ∧
        recs[j]? = some
          { Path := dir ++ file, Mode := guardedAt a.allFileModes (i + j) 0,
            Digest := guardedAt a.allFileDigests (i + j) [],
            Size := guardedAt a.allFileSizes (i + j) 0,
            Username := guardedAt a.allUserNames (i + j) [],
            Groupname := guardedAt a.allGroupNames (i + j) [],
            Flags := guardedAt a.allFileFlags (i + j) 0 } := by
  induction rest generalizing i files with
  | nil =>
    simp only [joinLoop, Outcome.ok.injEq] at h
    exact ⟨[], by simp [h], rfl, fun j hj => by simp at hj⟩
  | cons file rest ih =>
    obtain ⟨d, dir, hd, h0, hdir⟩ := joinLoop_ok_inv a dirs idx i file rest files out h
    rw [joinLoop_cons a dirs idx i file rest files d dir hd h0 hdir] at h
    obtain ⟨recs, hout, hlen, hrec⟩ := ih (i + 1) _ h
    refine ⟨_ :: recs, by simpa using hout, by simp [hlen], ?_⟩
    intro j hj
    cases j with
    | zero => exact ⟨d, dir, file, by simpa using hd, h0, hdir, by simp, by simp⟩
    | succ j =>
      obtain ⟨d1, dir1, file1, e1, e2, e3, e4, e5⟩ := hrec j (by simpa using hj)
      have harith : i + (j + 1) = i + 1 + j := by omega
      refine ⟨d1, dir1, file1, ?_, e2, e3, by simpa using e4, ?_⟩
      · rw [harith]
        exact e1
      · rw [harith]
        simpa using e5

theorem joinLoop_ok_iff (a : FileArrays) (dirs : List GoString) (idx : List Int)
    (rest : List GoString) (i : Nat) (files : List FileInfo) :
    (∃ out, joinLoop a dirs idx i rest files = Outcome.ok out) ↔
      ∀ j, j < rest.length → ∃ d, idx[i + j]? = some d ∧ 0 ≤ d ∧ d < (dirs.length : Int) := by
  constructor
  · rintro ⟨out, h⟩ j hj
    obtain ⟨recs, -, -, hrec⟩ := joinLoop_spec a dirs idx rest i files out h
    obtain ⟨d, dir, file, e1, e2, e3, -, -⟩ := hrec j hj
    refine ⟨d, e1, e2, ?_⟩
    have := (List.getElem?_eq_some_iff.mp e3).1
    omega
  · intro hall
    induction rest generalizing i files with
    | nil => exact ⟨files, rfl⟩
    | cons file rest ih =>
      obtain ⟨d, hd, h0, hlt⟩ := hall 0 (by simp)
      have hlt2 : d.toNat < dirs.length := by omega
      rw [joinLoop_cons a dirs idx i file rest files d dirs[d.toNat] (by simpa using hd) h0
        (List.getElem?_eq_getElem hlt2)]
      apply ih
      intro j hj
      have := hall (j + 1) (by simpa using hj)
      have harith : i + (j + 1) = i + 1 + j := by omega
      rwa [harith] at this

/-- Whether the join succeeds is decided by the basenames, the directory names
and the directory indexes alone. -/
theorem joinFiles_ok_iff (a : FileArrays) :
    (∃ out, joinFiles a = Outcome.ok out) ↔
      ∀ dirs idx, a.allDirs = some dirs → a.allDirIndexes = some idx →
        joinInRange (a.allBasenames.getD []) dirs idx := by
  unfold joinFiles joinInRange
  cases hd : a.allDirs with
  | none => simp
  | some dirs =>
    cases hi : a.allDirIndexes with
    | none => simp
    | some idx =>
      simp only [Option.some.injEq, forall_eq']
      rw [joinLoop_ok_iff]
      simp

/-! ## Properties: getFileInfo -/

theorem getFileInfo_eq_join {es : List indexEntry} {a : FileArrays}
    (hcol : collectFileArrays es = Outcome.ok a) : getFileInfo es = joinFiles a := by
  simp [getFileInfo, hcol]

theorem guardedAt_eq_optionalAt {α : Type} (arr : Option (List α)) (i : Nat) (zero : α) :
    guardedAt arr i zero = optionalAt arr i zero := by
  unfold guardedAt optionalAt
  cases arr with
  | none => simp
  | some l =>
    by_cases h : l.length > i
    · simp [h, List.getD_eq_getElem?_getD]
    · have : l.length ≤ i := by omega
      simp [h, List.getElem?_eq_none this]

/-- C1. File join: whenever getFileInfo returns a file list and both a
DIRNAMES and a DIRINDEXES array were collected, the list has one record per
collected basename, and record i carries the path dirnames[dirindexes[i]]
followed directly by basenames[i]. -/
theorem getFileInfo_join (es : List indexEntry) (files : List FileInfo) (a : FileArrays)
    (dirnames : List GoString) (dirindexes : List Int)
    (hok : getFileInfo es = Outcome.ok files)
    (hcol : collectFileArrays es = Outcome.ok a)
    (hd : a.allDirs = some dirnames) (hi : a.allDirIndexes = some dirindexes) :
    files.length = (a.allBasenames.getD []).length ∧
    ∀ i, i < (a.allBasenames.getD []).length →
      ∃ d dir base, dirindexes[i]? = some d ∧ 0 ≤ d ∧ dirnames[d.toNat]? = some dir ∧
        (a.allBasenames.getD [])[i]? = some base ∧
        (files[i]?).map FileInfo.Path = some (dir ++ base) := by
  rw [getFileInfo_eq_join hcol] at hok
  simp only [joinFiles, hd, hi] at hok
  obtain ⟨recs, hout, hlen, hrec⟩ := joinLoop_spec a dirnames dirindexes _ 0 [] files hok
  simp only [List.nil_append] at hout
  subst hout
  refine ⟨hlen, fun i hi => ?_⟩
  obtain ⟨d, dir, base, e1, e2, e3, e4, e5⟩ := hrec i hi
  refine ⟨d, dir, base, by simpa using e1, e2, e3, e4, ?_⟩
  rw [e5]
  rfl

/-- The join example of the specification: the paths are "/usr/a.txt" and
"/lib/b.so", in that order. -/
theorem getFileInfo_join_witness :
    getFileInfo joinExample = Outcome.ok joinExampleFiles ∧
    joinExampleFiles.map FileInfo.Path = [ascii "/usr/a.txt", ascii "/lib/b.so"] ∧
    (joinExampleFiles.length = (joinExampleArrays.allBasenames.getD []).length ∧
      ∀ i, i < (joinExampleArrays.allBasenames.getD []).length →
        ∃ d dir base, ([0, 1] : List Int)[i]? = some d ∧ 0 ≤ d ∧
          [ascii "/usr/", ascii "/lib/"][d.toNat]? = some dir ∧
          (joinExampleArrays.allBasenames.getD [])[i]? = some base ∧
          (joinExampleFiles[i]?).map FileInfo.Path = some (dir ++ base)) :=
  ⟨rfl, rfl, getFileInfo_join joinExample joinExampleFiles joinExampleArrays
    [ascii "/usr/", ascii "/lib/"] [0, 1] rfl rfl rfl rfl⟩

/-- C4. Optional per-file attributes: whenever getFileInfo returns a file
list and both a DIRNAMES and a DIRINDEXES array were collected, each of Digest,
Mode, Size, Username, Groupname and Flags of record i is element i of its
collected array when that array was collected and is long enough, and the zero
value otherwise; and the join succeeds just as well whatever the six optional
arrays are, missing or short ones included. -/
theorem getFileInfo_optional_attributes (es : List indexEntry) (files : List FileInfo)
    (a : FileArrays) (dirnames : List GoString) (dirindexes : List Int)
    (hok : getFileInfo es = Outcome.ok files)
    (hcol : collectFileArrays es = Outcome.ok a)
    (hd : a.allDirs = some dirnames) (hi : a.allDirIndexes = some dirindexes) :
    (∀ i, i < (a.allBasenames.getD []).length →
      ∃ r, files[i]? = some r ∧
        r.Digest = optionalAt a.allFileDigests i [] ∧
        r.Mode = optionalAt a.allFileModes i 0 ∧
        r.Size = optionalAt a.allFileSizes i 0 ∧
        r.Username = optionalAt a.allUserNames i [] ∧
        r.Groupname = optionalAt a.allGroupNames i [] ∧
        r.Flags = optionalAt a.allFileFlags i 0) ∧
    (∀ digests modes sizes users groups flags, ∃ out,
      joinFiles { a with allFileDigests := digests, allFileModes := modes,
                         allFileSizes := sizes, allUserNames := users,
                         allGroupNames := groups, allFileFlags := flags } = Outcome.ok out) := by
  rw [getFileInfo_eq_join hcol] at hok
  constructor
  · simp only [joinFiles, hd, hi] at hok
    obtain ⟨recs, hout, hlen, hrec⟩ := joinLoop_spec a dirnames dirindexes _ 0 [] files hok
    simp only [List.nil_append] at hout
    subst hout
    intro i hi
    obtain ⟨d, dir, base, -, -, -, -, e5⟩ := hrec i hi
    refine ⟨_, e5, ?_⟩
    simp [guardedAt_eq_optionalAt]
  · intro digests modes sizes users groups flags
    have h1 := (joinFiles_ok_iff a).mp ⟨files, hok⟩
    exact (joinFiles_ok_iff _).mpr h1

/-- The join example has no FILEMODES entry: every record has Mode 0. -/
theorem getFileInfo_optional_attributes_witness :
    getFileInfo joinExample = Outcome.ok joinExampleFiles ∧
    joinExampleArrays.allFileModes = none ∧
    (∀ r ∈ joinExampleFiles, r.Mode = 0) ∧
    ((∀ i, i < (joinExampleArrays.allBasenames.getD []).length →
      ∃ r, joinExampleFiles[i]? = some r ∧
        r.Digest = optionalAt joinExampleArrays.allFileDigests i [] ∧
        r.Mode = optionalAt joinExampleArrays.allFileModes i 0 ∧
        r.Size = optionalAt joinExampleArrays.allFileSizes i 0 ∧
        r.Username = optionalAt joinExampleArrays.allUserNames i [] ∧
        r.Groupname = optionalAt joinExampleArrays.allGroupNames i [] ∧
        r.Flags = optionalAt joinExampleArrays.allFileFlags i 0) ∧
    (∀ digests modes sizes users groups flags, ∃ out,
      joinFiles { joinExampleArrays with
        allFileDigests := digests, allFileModes := modes, allFileSizes := sizes,
        allUserNames := users, allGroupNames := groups, allFileFlags := flags }
        = Outcome.ok out)) :=
  ⟨rfl, rfl, by decide, getFileInfo_optional_attributes joinExample joinExampleFiles
    joinExampleArrays [ascii "/usr/", ascii "/lib/"] [0, 1] rfl rfl rfl rfl⟩

/-- C5. Missing join-critical tags: when the sequence has no DIRNAMES entry or
no DIRINDEXES entry and every recognized entry is correctly typed and
decodable, getFileInfo returns the empty file list and no error. -/
theorem getFileInfo_missing_join_tags (es : List indexEntry)
    (hmiss : (∀ e ∈ es, e.Info.Tag ≠ RPMTAG_DIRNAMES) ∨
             (∀ e ∈ es, e.Info.Tag ≠ RPMTAG_DIRINDEXES))
    (hconf : ∀ e ∈ es, wellTyped e ∧ decodable e) :
    getFileInfo es = Outcome.ok [] := by
  obtain ⟨a, ha⟩ := fileLoop_ok_of_forall es
    (fun e he a => fileStep_ok_of_conforming a e (hconf e he).1 (hconf e he).2) FileArrays.zero
  have hcol : collectFileArrays es = Outcome.ok a := ha
  rw [getFileInfo_eq_join hcol]
  obtain ⟨h1, h2⟩ := fileLoop_ok_dirs es _ _ ha
  unfold joinFiles
  rcases hmiss with hm | hm
  · rw [h1 hm]
    rfl
  · rw [h2 hm]
    cases a.allDirs <;> rfl

/-- The join example without DIRINDEXES: no files, no error. -/
theorem getFileInfo_missing_join_tags_witness :
    ((∀ e ∈ noDirIndexesExample, e.Info.Tag ≠ RPMTAG_DIRNAMES) ∨
      (∀ e ∈ noDirIndexesExample, e.Info.Tag ≠ RPMTAG_DIRINDEXES)) ∧
    (∀ e ∈ noDirIndexesExample, wellTyped e ∧ decodable e) ∧
    getFileInfo noDirIndexesExample = Outcome.ok [] :=
  ⟨by decide, by decide, getFileInfo_missing_join_tags noDirIndexesExample (by decide)
    (by decide)⟩

/-! ## Properties: getNEVRA -/

theorem getNEVRA_ok_inv {es : List indexEntry} {p : PackageInfo}
    (h : getNEVRA es = Outcome.ok p) :
    ∃ q files, nevraLoop es PackageInfo.zero = Outcome.ok q ∧
      getFileInfo es = Outcome.ok files ∧ p = { q with Files := files } := by
  unfold getNEVRA at h
  cases h1 : nevraLoop es PackageInfo.zero with
  | err x => simp [h1] at h
  | panic q => simp [h1] at h
  | ok q =>
    cases h2 : getFileInfo es with
    | err x => simp [h1, h2] at h
    | panic r => simp [h1, h2] at h
    | ok files =>
      simp only [h1, h2, Outcome.ok.injEq] at h
      exact ⟨q, files, rfl, rfl, h.symm⟩

theorem getNEVRA_err_of_loop {es : List indexEntry} {x : GoError}
    (h : nevraLoop es PackageInfo.zero = Outcome.err x) : getNEVRA es = Outcome.err x := by
  simp [getNEVRA, h]

theorem dropWhile_head_ne_zero (l : List Byte) :
    (l.dropWhile (fun b => b = 0)).head? ≠ some 0 := by
  induction l with
  | nil => simp
  | cons a t ih =>
    by_cases ha : a = 0
    · simpa [List.dropWhile, ha] using ih
    · simp [List.dropWhile, ha]

theorem trimRightNul_spec (data : List Byte) : IsNulTrimOf data (trimRightNul data) := by
  unfold IsNulTrimOf trimRightNul
  constructor
  · refine ⟨(data.reverse.takeWhile (fun b => b = 0)).length, ?_⟩
    have hsplit := List.takeWhile_append_dropWhile (fun b => decide (b = 0)) data.reverse
    have hrep : data.reverse.takeWhile (fun b => decide (b = 0)) =
        List.replicate (data.reverse.takeWhile (fun b => decide (b = 0))).length (0 : Byte) := by
      rw [List.eq_replicate_iff]
      refine ⟨rfl, fun b hb => ?_⟩
      simpa using List.mem_takeWhile_imp hb
    have h2 : data = (data.reverse.dropWhile (fun b => decide (b = 0))).reverse ++
        (data.reverse.takeWhile (fun b => decide (b = 0))).reverse := by
      rw [← List.reverse_append, hsplit, List.reverse_reverse]
    rw [hrep, List.reverse_replicate] at h2
    simpa using h2
  · rw [List.getLast?_reverse]
    exact dropWhile_head_ne_zero _

/-- A field written by exactly one tag holds, after the loop, what the last
entry with that tag wrote, or its initial value without such an entry. -/
theorem nevraLoop_field (get : PackageInfo → GoString) (tag : Int)
    (f : List Byte → GoString)
    (hstep : ∀ p0 p1 e, nevraStep p0 e = Outcome.ok p1 →
      get p1 = if e.Info.Tag = tag then f e.bytes else get p0)
    (es : List indexEntry) (p0 p : PackageInfo) (h : nevraLoop es p0 = Outcome.ok p) :
    get p = match lastWithTag tag es with
      | some e => f e.bytes
      | none => get p0 := by
  induction es generalizing p0 with
  | nil =>
    simp only [nevraLoop, Outcome.ok.injEq] at h
    simp [lastWithTag, h]
  | cons e es ih =>
    simp only [nevraLoop] at h
    cases hs : nevraStep p0 e with
    | err x => simp [hs] at h
    | panic q => simp [hs] at h
    | ok p1 =>
      simp only [hs] at h
      have h1 := ih p1 h
      have h2 := hstep p0 p1 e hs
      simp only [lastWithTag]
      cases hl : lastWithTag tag es with
      | some later => simpa [hl] using h1
      | none =>
        rw [hl] at h1
        simp only at h1
        rw [h1, h2]
        by_cases ht : e.Info.Tag = tag <;> simp [ht]

theorem nevraLoop_epoch_unchanged (es : List indexEntry) (p0 p : PackageInfo)
    (h : nevraLoop es p0 = Outcome.ok p) (hno : ∀ e ∈ es, e.Info.Tag ≠ RPMTAG_EPOCH) :
    p.Epoch = p0.Epoch := by
  induction es generalizing p0 with
  | nil =>
    simp only [nevraLoop, Outcome.ok.injEq] at h
    rw [h]
  | cons e es ih =>
    simp only [nevraLoop] at h
    cases hs : nevraStep p0 e with
    | err x => simp [hs] at h
    | panic q => simp [hs] at h
    | ok p1 =>
      simp only [hs] at h
      rw [ih p1 h (fun e1 h1 => hno e1 (List.mem_cons_of_mem _ h1))]
      exact (nevraStep_ok_epoch hs).1 (hno e (List.mem_cons_self _ _))

theorem nevraLoop_ok_split (xs : List indexEntry) (e : indexEntry) (ys : List indexEntry)
    (p0 p : PackageInfo) (h : nevraLoop (xs ++ e :: ys) p0 = Outcome.ok p) :
    ∃ p1 p2, nevraLoop xs p0 = Outcome.ok p1 ∧ nevraStep p1 e = Outcome.ok p2 ∧
      nevraLoop ys p2 = Outcome.ok p := by
  rw [nevraLoop_append] at h
  cases h1 : nevraLoop xs p0 with
  | err x => simp [h1] at h
  | panic q => simp [h1] at h
  | ok p1 =>
    simp only [h1, nevraLoop] at h
    cases h2 : nevraStep p1 e with
    | err x => simp [h2] at h
    | panic q => simp [h2] at h
    | ok p2 =>
      simp only [h2] at h
      exact ⟨p1, p2, rfl, h2, h⟩

/-! ## Properties: type checks and decode failures of getNEVRA -/

/-- C3, as amended. When every recognized entry has its required declared
type and a decodable payload, and the directory indexes read by the join are
in range whenever both DIRNAMES and DIRINDEXES were collected, getNEVRA
returns a PackageInfo: no error value and no out-of-range failure. -/
theorem getNEVRA_conforming_ok (es : List indexEntry)
    (hconf : ∀ e ∈ es, wellTyped e ∧ decodable e)
    (hjoin : ∀ a dirs idx, collectFileArrays es = Outcome.ok a → a.allDirs = some dirs →
      a.allDirIndexes = some idx → joinInRange (a.allBasenames.getD []) dirs idx) :
    ∃ p, getNEVRA es = Outcome.ok p := by
  obtain ⟨q, hq⟩ := nevraLoop_ok_of_forall es
    (fun e he p => nevraStep_ok_of_conforming p e (hconf e he).1 (hconf e he).2)
    PackageInfo.zero
  obtain ⟨a, ha⟩ := fileLoop_ok_of_forall es
    (fun e he a => fileStep_ok_of_conforming a e (hconf e he).1 (hconf e he).2) FileArrays.zero
  have hcol : collectFileArrays es = Outcome.ok a := ha
  obtain ⟨files, hf⟩ := (joinFiles_ok_iff a).mpr (fun dirs idx hd hi => hjoin a dirs idx hcol hd hi)
  refine ⟨{ q with Files := files }, ?_⟩
  simp [getNEVRA, hq, getFileInfo_eq_join hcol, hf]

/-- The join example conforms and its directory indexes are in range:
getNEVRA returns a PackageInfo. -/
theorem getNEVRA_conforming_ok_witness :
    (∀ e ∈ joinExample, wellTyped e ∧ decodable e) ∧
    joinInRange [ascii "a.txt", ascii "b.so"] [ascii "/usr/", ascii "/lib/"] [0, 1] ∧
    ∃ p, getNEVRA joinExample = Outcome.ok p :=
  have hr : joinInRange [ascii "a.txt", ascii "b.so"] [ascii "/usr/", ascii "/lib/"] [0, 1] := by
    intro i hi
    match i, hi with
    | 0, _ => exact ⟨0, rfl, by decide, by decide⟩
    | 1, _ => exact ⟨1, rfl, by decide, by decide⟩
  ⟨by decide, hr, getNEVRA_conforming_ok joinExample (by decide) (by
    intro a dirs idx hcol hd hi
    have hc : collectFileArrays joinExample = Outcome.ok joinExampleArrays := rfl
    rw [hc] at hcol
    cases hcol
    cases hd
    cases hi
    exact hr)⟩

/-- C3, as stated, fails: a single SIZE entry declared int32, hence conforming
to the schema, with a payload of two bytes makes getNEVRA return an error. -/
theorem conforming_short_size_errors :
    (∀ e ∈ shortSizeEntry, wellTyped e) ∧
    getNEVRA shortSizeEntry =
      Outcome.err (GoError.wrap "failed to read binary (size)" GoError.ErrUnexpectedEOF) :=
  ⟨by decide, rfl⟩

/-! ## Properties: the fields extracted by getNEVRA -/

theorem trimmedFrom_of_eq {last : Option indexEntry} {field : GoString}
    (h : field = match last with
      | some e => trimRightNul e.bytes
      | none => []) : TrimmedFrom last field := by
  unfold TrimmedFrom
  cases last with
  | none => simpa using h
  | some e =>
    simp only at h ⊢
    rw [h]
    exact trimRightNul_spec e.bytes

theorem normalizedFrom_of_eq {last : Option indexEntry} {field : GoString}
    (h : field = match last with
      | some e => dropNone (trimRightNul e.bytes)
      | none => []) : NormalizedFrom last field := by
  unfold NormalizedFrom
  cases last with
  | none => simpa using h
  | some e =>
    simp only at h ⊢
    have hlit : ascii "(none)" = noneLiteral := by decide
    refine ⟨trimRightNul e.bytes, trimRightNul_spec e.bytes, ?_, ?_⟩
    · intro ht
      rw [h, dropNone, if_pos (ht.trans hlit)]
    · intro ht
      rw [h, dropNone, if_neg (fun hc => ht (hc.trans hlit.symm))]

/-- C6. NUL-trimmed identity fields: whenever getNEVRA succeeds, each of Name,
Version, Release and Arch is the payload of the last entry with its tag with
all trailing NUL bytes removed and nothing else changed, and is empty when no
entry has that tag. -/
theorem getNEVRA_identity_fields (es : List indexEntry) (p : PackageInfo)
    (h : getNEVRA es = Outcome.ok p) :
    TrimmedFrom (lastWithTag RPMTAG_NAME es) p.Name ∧
    TrimmedFrom (lastWithTag RPMTAG_VERSION es) p.Version ∧
    TrimmedFrom (lastWithTag RPMTAG_RELEASE es) p.Release ∧
    TrimmedFrom (lastWithTag RPMTAG_ARCH es) p.Arch := by
  obtain ⟨q, files, hq, -, rfl⟩ := getNEVRA_ok_inv h
  refine ⟨trimmedFrom_of_eq ?_, trimmedFrom_of_eq ?_, trimmedFrom_of_eq ?_,
    trimmedFrom_of_eq ?_⟩
  · exact nevraLoop_field (fun r => r.Name) RPMTAG_NAME trimRightNul
      (fun _ _ _ hs => (nevraStep_ok_fields hs).1) es _ q hq
  · exact nevraLoop_field (fun r => r.Version) RPMTAG_VERSION trimRightNul
      (fun _ _ _ hs => (nevraStep_ok_fields hs).2.1) es _ q hq
  · exact nevraLoop_field (fun r => r.Release) RPMTAG_RELEASE trimRightNul
      (fun _ _ _ hs => (nevraStep_ok_fields hs).2.2.1) es _ q hq
  · exact nevraLoop_field (fun r => r.Arch) RPMTAG_ARCH trimRightNul
      (fun _ _ _ hs => (nevraStep_ok_fields hs).2.2.2.1) es _ q hq

/-- The identity example: the later NAME wins, trailing NULs go, the NUL
inside the RELEASE payload stays, and Arch is empty for want of an entry. -/
theorem getNEVRA_identity_fields_witness :
    getNEVRA identityExample = Outcome.ok identityExampleInfo ∧
    identityExampleInfo.Name = ascii "zsh" ∧
    identityExampleInfo.Release = ascii "2" ++ [0] ++ ascii "el9" ∧
    identityExampleInfo.Arch = [] ∧
    (TrimmedFrom (lastWithTag RPMTAG_NAME identityExample) identityExampleInfo.Name ∧
      TrimmedFrom (lastWithTag RPMTAG_VERSION identityExample) identityExampleInfo.Version ∧
      TrimmedFrom (lastWithTag RPMTAG_RELEASE identityExample) identityExampleInfo.Release ∧
      TrimmedFrom (lastWithTag RPMTAG_ARCH identityExample) identityExampleInfo.Arch) :=
  ⟨rfl, rfl, rfl, rfl, getNEVRA_identity_fields identityExample identityExampleInfo rfl⟩

theorem asInt32_eq_signedBigEndian32 (b0 b1 b2 b3 : Byte) :
    asInt32 (beUint32 b0 b1 b2 b3) = signedBigEndian32 b0 b1 b2 b3 := by
  have h0 := b0.isLt
  have h1 := b1.isLt
  have h2 := b2.isLt
  have h3 := b3.isLt
  unfold asInt32 beUint32 signedBigEndian32
  have hlt : b0.val * 2 ^ 24 + b1.val * 2 ^ 16 + b2.val * 2 ^ 8 + b3.val < 2 ^ 32 := by omega
  rw [Nat.mod_eq_of_lt hlt]
  by_cases hb : 128 ≤ b0.val
  · have : ¬ b0.val * 2 ^ 24 + b1.val * 2 ^ 16 + b2.val * 2 ^ 8 + b3.val < 2 ^ 31 := by omega
    rw [if_neg this, if_pos hb]
    push_cast
    rfl
  · have : b0.val * 2 ^ 24 + b1.val * 2 ^ 16 + b2.val * 2 ^ 8 + b3.val < 2 ^ 31 := by omega
    rw [if_pos this, if_neg hb]
    push_cast
    rfl

/-- C7. Epoch law: whenever getNEVRA succeeds on a sequence with exactly one
EPOCH entry, a nil payload leaves Epoch unset, and a present payload sets
Epoch to the big-endian two's-complement value of its first four bytes, the
unsigned value less 2^32 when the first byte is 128 or more; four zero bytes
give the present value 0, which is not the unset Epoch. -/
theorem getNEVRA_epoch (es : List indexEntry) (p : PackageInfo) (e : indexEntry)
    (h : getNEVRA es = Outcome.ok p)
    (hone : es.filter (fun x => decide (x.Info.Tag = RPMTAG_EPOCH)) = [e]) :
    (e.Data = none → p.Epoch = none) ∧
    (∀ data, e.Data = some data →
      ∃ b0 b1 b2 b3 rest, data = b0 :: b1 :: b2 :: b3 :: rest ∧
        p.Epoch = some (signedBigEndian32 b0 b1 b2 b3)) ∧
    (e.Data = some [0, 0, 0, 0] → p.Epoch = some 0 ∧ p.Epoch ≠ none) := by
  obtain ⟨q, files, hq, -, rfl⟩ := getNEVRA_ok_inv h
  obtain ⟨xs, ys, rfl, hxs, hte, hys⟩ := List.filter_eq_cons_iff.mp hone
  have hte : e.Info.Tag = RPMTAG_EPOCH := by simpa using hte
  have hxs : ∀ x ∈ xs, x.Info.Tag ≠ RPMTAG_EPOCH := fun x hx => by simpa using hxs x hx
  have hys : ∀ y ∈ ys, y.Info.Tag ≠ RPMTAG_EPOCH := fun y hy => by
    simpa using (List.filter_eq_nil_iff.mp hys) y hy
  obtain ⟨p1, p2, h1, h2, h3⟩ := nevraLoop_ok_split xs e ys _ q hq
  have e1 : p1.Epoch = none := nevraLoop_epoch_unchanged xs _ p1 h1 hxs
  have e3 : q.Epoch = p2.Epoch := nevraLoop_epoch_unchanged ys _ q h3 hys
  obtain ⟨-, s2, s3⟩ := nevraStep_ok_epoch h2
  have hsome : ∀ data, e.Data = some data →
      ∃ b0 b1 b2 b3 rest, data = b0 :: b1 :: b2 :: b3 :: rest ∧
        q.Epoch = some (signedBigEndian32 b0 b1 b2 b3) := by
    intro data hd
    obtain ⟨b0, b1, b2, b3, rest, hdat, hv⟩ := s3 hte data hd
    exact ⟨b0, b1, b2, b3, rest, hdat, by rw [e3, hv, asInt32_eq_signedBigEndian32]⟩
  refine ⟨fun hn => ?_, hsome, fun hz => ?_⟩
  · show q.Epoch = none
    rw [e3, s2 hte hn, e1]
  · obtain ⟨b0, b1, b2, b3, rest, hdat, hv⟩ := hsome _ hz
    simp only [List.cons.injEq] at hdat
    obtain ⟨rfl, rfl, rfl, rfl, -⟩ := hdat
    have hval : signedBigEndian32 0 0 0 0 = 0 := by decide
    rw [hval] at hv
    exact ⟨hv, by rw [hv]; simp⟩

/-- The payload ff ff ff fe gives the Epoch -2, a negative value, and the
payload of four zero bytes the present value 0. -/
theorem getNEVRA_epoch_witness :
    getNEVRA zeroEpochExample = Outcome.ok zeroEpochExampleInfo ∧
    zeroEpochExampleInfo.Epoch = some 0 ∧
    getNEVRA negativeEpochExample = Outcome.ok negativeEpochExampleInfo ∧
    negativeEpochExample.filter (fun x => decide (x.Info.Tag = RPMTAG_EPOCH)) =
      [negativeEpochEntry] ∧
    negativeEpochEntry.Data = some [255, 255, 255, 254] ∧
    negativeEpochExampleInfo.Epoch = some (-2) ∧
    signedBigEndian32 255 255 255 254 = -2 ∧
    ((negativeEpochEntry.Data = none → negativeEpochExampleInfo.Epoch = none) ∧
      (∀ data, negativeEpochEntry.Data = some data →
        ∃ b0 b1 b2 b3 rest, data = b0 :: b1 :: b2 :: b3 :: rest ∧
          negativeEpochExampleInfo.Epoch = some (signedBigEndian32 b0 b1 b2 b3)) ∧
      (negativeEpochEntry.Data = some [0, 0, 0, 0] →
        negativeEpochExampleInfo.Epoch = some 0 ∧ negativeEpochExampleInfo.Epoch ≠ none)) :=
  ⟨rfl, rfl, rfl, rfl, rfl, rfl, by decide,
    getNEVRA_epoch negativeEpochExample negativeEpochExampleInfo negativeEpochEntry rfl rfl⟩

/-- C8. "(none)" normalization: whenever getNEVRA succeeds, each of SourceRpm,
License and Vendor is empty when the NUL-trimmed payload of the last entry
with its tag is exactly "(none)", and is that NUL-trimmed payload unchanged
otherwise. -/
theorem getNEVRA_none_normalization (es : List indexEntry) (p : PackageInfo)
    (h : getNEVRA es = Outcome.ok p) :
    NormalizedFrom (lastWithTag RPMTAG_SOURCERPM es) p.SourceRpm ∧
    NormalizedFrom (lastWithTag RPMTAG_LICENSE es) p.License ∧
    NormalizedFrom (lastWithTag RPMTAG_VENDOR es) p.Vendor := by
  obtain ⟨q, files, hq, -, rfl⟩ := getNEVRA_ok_inv h
  refine ⟨normalizedFrom_of_eq ?_, normalizedFrom_of_eq ?_, normalizedFrom_of_eq ?_⟩
  · exact nevraLoop_field (fun r => r.SourceRpm) RPMTAG_SOURCERPM
      (fun d => dropNone (trimRightNul d))
      (fun _ _ _ hs => (nevraStep_ok_fields hs).2.2.2.2.1) es _ q hq
  · exact nevraLoop_field (fun r => r.License) RPMTAG_LICENSE
      (fun d => dropNone (trimRightNul d))
      (fun _ _ _ hs => (nevraStep_ok_fields hs).2.2.2.2.2.1) es _ q hq
  · exact nevraLoop_field (fun r => r.Vendor) RPMTAG_VENDOR
      (fun d => dropNone (trimRightNul d))
      (fun _ _ _ hs => (nevraStep_ok_fields hs).2.2.2.2.2.2.1) es _ q hq

/-- The normalization example: "(none)" becomes empty, while "(None)" and
"(none) " are kept as they are. -/
theorem getNEVRA_none_normalization_witness :
    getNEVRA normalizationExample = Outcome.ok normalizationExampleInfo ∧
    normalizationExampleInfo.SourceRpm = [] ∧
    normalizationExampleInfo.License = ascii "(None)" ∧
    normalizationExampleInfo.Vendor = ascii "(none) " ∧
    (NormalizedFrom (lastWithTag RPMTAG_SOURCERPM normalizationExample)
        normalizationExampleInfo.SourceRpm ∧
      NormalizedFrom (lastWithTag RPMTAG_LICENSE normalizationExample)
        normalizationExampleInfo.License ∧
      NormalizedFrom (lastWithTag RPMTAG_VENDOR normalizationExample)
        normalizationExampleInfo.Vendor) :=
  ⟨rfl, rfl, rfl, rfl,
    getNEVRA_none_normalization normalizationExample normalizationExampleInfo rfl⟩

/-- C9. Truncated fixed-width payload: every sequence that contains a SIZE or
a FILEDIGESTALGO entry with fewer than four payload bytes (a nil payload
included), or an EPOCH entry whose payload is present but shorter than four
bytes, makes getNEVRA return an error, and so no PackageInfo. -/
theorem getNEVRA_truncated (es : List indexEntry)
    (h : ∃ e ∈ es,
      (e.Info.Tag = RPMTAG_SIZE ∧ e.bytes.length < 4) ∨
      (e.Info.Tag = RPMTAG_FILEDIGESTALGO ∧ e.bytes.length < 4) ∨
      (e.Info.Tag = RPMTAG_EPOCH ∧ ∃ data, e.Data = some data ∧ data.length < 4)) :
    ∃ x, getNEVRA es = Outcome.err x := by
  obtain ⟨e, he, hbad⟩ := h
  obtain ⟨x, hx⟩ := nevraLoop_err_of_mem es e he (fun p => nevraStep_truncated p e hbad)
    PackageInfo.zero
  exact ⟨x, getNEVRA_err_of_loop hx⟩

/-- A SIZE entry with a payload of two bytes: extraction fails with the error
of the binary read. -/
theorem getNEVRA_truncated_witness :
    (∃ e ∈ shortSizeEntry,
      (e.Info.Tag = RPMTAG_SIZE ∧ e.bytes.length < 4) ∨
      (e.Info.Tag = RPMTAG_FILEDIGESTALGO ∧ e.bytes.length < 4) ∨
      (e.Info.Tag = RPMTAG_EPOCH ∧ ∃ data, e.Data = some data ∧ data.length < 4)) ∧
    ∃ x, getNEVRA shortSizeEntry = Outcome.err x :=
  have hex : ∃ e ∈ shortSizeEntry,
      (e.Info.Tag = RPMTAG_SIZE ∧ e.bytes.length < 4) ∨
      (e.Info.Tag = RPMTAG_FILEDIGESTALGO ∧ e.bytes.length < 4) ∨
      (e.Info.Tag = RPMTAG_EPOCH ∧ ∃ data, e.Data = some data ∧ data.length < 4) :=
    ⟨mkEntry RPMTAG_SIZE RPM_INT32_TYPE [0, 1], by decide, Or.inl ⟨rfl, by decide⟩⟩
  ⟨hex, getNEVRA_truncated shortSizeEntry hex⟩

theorem fileLoop_insert_skip (xs ys : List indexEntry) (e : indexEntry)
    (h : e.Info.Tag ∉ fileTags) (a : FileArrays) :
    fileLoop (xs ++ [e] ++ ys) a = fileLoop (xs ++ ys) a := by
  rw [List.append_assoc, fileLoop_append, fileLoop_append xs ys]
  cases fileLoop xs a with
  | ok b => simp [fileLoop, fileStep_skip b e h]
  | err x => rfl
  | panic q => rfl

theorem nevraLoop_insert_skip (xs ys : List indexEntry) (e : indexEntry)
    (h : e.Info.Tag ∉ nevraTags) (p : PackageInfo) :
    nevraLoop (xs ++ [e] ++ ys) p = nevraLoop (xs ++ ys) p := by
  rw [List.append_assoc, nevraLoop_append, nevraLoop_append xs ys]
  cases nevraLoop xs p with
  | ok q => simp [nevraLoop, nevraStep_skip q e h]
  | err x => rfl
  | panic q => rfl

/-- C10. Unmatched tags are ignored: inserting anywhere an entry whose tag is
none of the nineteen recognized tags leaves the outcome of getNEVRA exactly
as it was, the same PackageInfo with the same Files or the same failure,
whatever the declared type, payload and declared length of that entry. -/
theorem getNEVRA_ignores_unmatched (xs ys : List indexEntry) (e : indexEntry)
    (h : e.Info.Tag ∉ recognizedTags) :
    getNEVRA (xs ++ [e] ++ ys) = getNEVRA (xs ++ ys) := by
  have h1 : e.Info.Tag ∉ nevraTags := fun hc => h (List.mem_append_left _ hc)
  have h2 : e.Info.Tag ∉ fileTags := fun hc => h (List.mem_append_right _ hc)
  unfold getNEVRA getFileInfo collectFileArrays
  rw [nevraLoop_insert_skip xs ys e h1, fileLoop_insert_skip xs ys e h2]

/-- The join example with an unmatched entry put in the middle. -/
theorem getNEVRA_ignores_unmatched_witness :
    unmatchedEntry.Info.Tag ∉ recognizedTags ∧
    getNEVRA (joinExample.take 2 ++ [unmatchedEntry] ++ joinExample.drop 2) =
      getNEVRA (joinExample.take 2 ++ joinExample.drop 2) :=
  ⟨by decide, getNEVRA_ignores_unmatched (joinExample.take 2) (joinExample.drop 2)
    unmatchedEntry (by decide)⟩

/-! ## Properties: the decoders -/


theorem splitOn_nulTerminated (l : List GoString) (hl : ∀ s ∈ l, (0 : Byte) ∉ s) :
    (nulTerminated l).splitOn 0 = l ++ [[]] := by
  induction l with
  | nil => rfl
  | cons s l ih =>
    have hs : ∀ x ∈ s, ¬ (x == (0 : Byte)) = true := by
      intro x hx hc
      rw [eq_of_beq hc] at hx
      exact hl s (List.mem_cons_self _ _) hx
    have hcons : nulTerminated (s :: l) = s ++ 0 :: nulTerminated l := by
      simp [nulTerminated]
    rw [hcons, List.splitOn, List.splitOnP_first _ s hs 0 (beq_self_eq_true _)]
    have := ih (fun t ht => hl t (List.mem_cons_of_mem _ ht))
    rw [List.splitOn] at this
    rw [this]
    rfl

/-- C11. String-array round trip: for every list of strings none of which
contains a NUL byte, parseStringArray applied to the concatenation of each
element followed by one NUL byte returns exactly that list, empty-string
elements and the empty list included. -/
theorem parseStringArray_nulTerminated (l : List GoString)
    (hl : ∀ s ∈ l, (0 : Byte) ∉ s) :
    parseStringArray (nulTerminated l) = l := by
  unfold parseStringArray
  simp only [splitOn_nulTerminated l hl]
  simp

/-- Three strings, the middle one empty, and the empty list for the empty
payload. -/
theorem parseStringArray_nulTerminated_witness :
    (∀ s ∈ [ascii "a", [], ascii "bc"], (0 : Byte) ∉ s) ∧
    nulTerminated [ascii "a", [], ascii "bc"] = [97, 0, 0, 98, 99, 0] ∧
    parseStringArray [] = [] ∧
    parseStringArray (nulTerminated [ascii "a", [], ascii "bc"]) = [ascii "a", [], ascii "bc"] :=
  ⟨by decide, by decide, by decide,
    parseStringArray_nulTerminated [ascii "a", [], ascii "bc"] (by decide)⟩

theorem asInt32_beUint32 (b0 b1 b2 b3 : Byte) :
    asInt32 (beUint32 b0 b1 b2 b3) =
      if 128 ≤ b0.val then
        (b0.val * 2 ^ 24 + b1.val * 2 ^ 16 + b2.val * 2 ^ 8 + b3.val : Int) - 2 ^ 32
      else (b0.val * 2 ^ 24 + b1.val * 2 ^ 16 + b2.val * 2 ^ 8 + b3.val : Int) := by
  have h0 := b0.isLt
  have h1 := b1.isLt
  have h2 := b2.isLt
  have h3 := b3.isLt
  unfold asInt32 beUint32
  have hlt : b0.val * 2 ^ 24 + b1.val * 2 ^ 16 + b2.val * 2 ^ 8 + b3.val < 2 ^ 32 := by omega
  rw [Nat.mod_eq_of_lt hlt]
  by_cases hb : 128 ≤ b0.val
  · have : ¬ b0.val * 2 ^ 24 + b1.val * 2 ^ 16 + b2.val * 2 ^ 8 + b3.val < 2 ^ 31 := by omega
    rw [if_neg this, if_pos hb]
    push_cast
    rfl
  · have : b0.val * 2 ^ 24 + b1.val * 2 ^ 16 + b2.val * 2 ^ 8 + b3.val < 2 ^ 31 := by omega
    rw [if_pos this, if_neg hb]
    push_cast
    rfl

/-- C12. On a payload of exactly four bytes parseInt32 returns, without
error, the big-endian value of the bytes read as a signed 32-bit integer,
2^32 less than the unsigned value when the first byte is 128 or more; on
every payload shorter than four bytes it returns an error. -/
theorem parseInt32_contract :
    (∀ b0 b1 b2 b3 : Byte, parseInt32 [b0, b1, b2, b3] = Outcome.ok
      (if 128 ≤ b0.val then
        (b0.val * 2 ^ 24 + b1.val * 2 ^ 16 + b2.val * 2 ^ 8 + b3.val : Int) - 2 ^ 32
      else (b0.val * 2 ^ 24 + b1.val * 2 ^ 16 + b2.val * 2 ^ 8 + b3.val : Int))) ∧
    (∀ data : List Byte, data.length < 4 → ∃ x, parseInt32 data = Outcome.err x) := by
  constructor
  · intro b0 b1 b2 b3
    rw [← asInt32_beUint32]
    rfl
  · intro data h
    exact ⟨_, parseInt32_short data h⟩

/-- The payload ff ff ff fe is -2, the payload 00 00 01 00 is 256, and a
payload of three bytes is an error. -/
theorem parseInt32_contract_witness :
    parseInt32 [255, 255, 255, 254] = Outcome.ok (-2) ∧
    parseInt32 [0, 0, 1, 0] = Outcome.ok 256 ∧
    ([1, 2, 3] : List Byte).length < 4 ∧
    ∃ x, parseInt32 [1, 2, 3] = Outcome.err x :=
  ⟨by decide, by decide, by decide, parseInt32_contract.2 [1, 2, 3] (by decide)⟩

theorem decodeInt32s_take (m : Nat) (data : List Byte) (h : 4 * m ≤ data.length) :
    (decodeInt32s (data.take (4 * m))).length = m ∧
    ∀ k, k < m → ∃ b0 b1 b2 b3, data[4 * k]? = some b0 ∧ data[4 * k + 1]? = some b1 ∧
      data[4 * k + 2]? = some b2 ∧ data[4 * k + 3]? = some b3 ∧
      (decodeInt32s (data.take (4 * m)))[k]? = some (asInt32 (beUint32 b0 b1 b2 b3)) := by
  induction m generalizing data with
  | zero => simp [decodeInt32s]
  | succ m ih =>
    match data, h with
    | b0 :: b1 :: b2 :: b3 :: rest, h =>
      have hrest : 4 * m ≤ rest.length := by
        simp only [List.length_cons] at h
        omega
      have htake : (b0 :: b1 :: b2 :: b3 :: rest).take (4 * (m + 1)) =
          b0 :: b1 :: b2 :: b3 :: rest.take (4 * m) := by
        have : 4 * (m + 1) = 4 * m + 1 + 1 + 1 + 1 := by omega
        rw [this]
        rfl
      obtain ⟨hlen, hel⟩ := ih rest hrest
      rw [htake]
      simp only [decodeInt32s, List.length_cons, hlen, true_and]
      intro k hk
      cases k with
      | zero => exact ⟨b0, b1, b2, b3, by simp, by simp, by simp, by simp, by simp⟩
      | succ k =>
        obtain ⟨c0, c1, c2, c3, e0, e1, e2, e3, e4⟩ := hel k (by omega)
        refine ⟨c0, c1, c2, c3, ?_, ?_, ?_, ?_, ?_⟩
        · have : 4 * (k + 1) = 4 * k + 1 + 1 + 1 + 1 := by omega
          rw [this]
          simpa using e0
        · have : 4 * (k + 1) + 1 = 4 * k + 1 + 1 + 1 + 1 + 1 := by omega
          rw [this]
          simpa using e1
        · have : 4 * (k + 1) + 2 = 4 * k + 2 + 1 + 1 + 1 + 1 := by omega
          rw [this]
          simpa using e2
        · have : 4 * (k + 1) + 3 = 4 * k + 3 + 1 + 1 + 1 + 1 := by omega
          rw [this]
          simpa using e3
        · simpa using e4
    | [], h => simp at h
    | [_], h => simp at h; omega
    | [_, _], h => simp at h; omega
    | [_, _, _], h => simp at h; omega

theorem decodeUint16s_take (m : Nat) (data : List Byte) (h : 2 * m ≤ data.length) :
    (decodeUint16s (data.take (2 * m))).length = m ∧
    ∀ k, k < m → ∃ b0 b1, data[2 * k]? = some b0 ∧ data[2 * k + 1]? = some b1 ∧
      (decodeUint16s (data.take (2 * m)))[k]? = some (b0.val * 2 ^ 8 + b1.val) := by
  induction m generalizing data with
  | zero => simp [decodeUint16s]
  | succ m ih =>
    match data, h with
    | b0 :: b1 :: rest, h =>
      have hrest : 2 * m ≤ rest.length := by
        simp only [List.length_cons] at h
        omega
      have htake : (b0 :: b1 :: rest).take (2 * (m + 1)) = b0 :: b1 :: rest.take (2 * m) := by
        have : 2 * (m + 1) = 2 * m + 1 + 1 := by omega
        rw [this]
        rfl
      obtain ⟨hlen, hel⟩ := ih rest hrest
      rw [htake]
      simp only [decodeUint16s, List.length_cons, hlen, true_and]
      intro k hk
      cases k with
      | zero => exact ⟨b0, b1, by simp, by simp, by simp⟩
      | succ k =>
        obtain ⟨c0, c1, e0, e1, e2⟩ := hel k (by omega)
        refine ⟨c0, c1, ?_, ?_, ?_⟩
        · have : 2 * (k + 1) = 2 * k + 1 + 1 := by omega
          rw [this]
          simpa using e0
        · have : 2 * (k + 1) + 1 = 2 * k + 1 + 1 + 1 := by omega
          rw [this]
          simpa using e1
        · simpa using e2
    | [], h => simp at h
    | [_], h => simp at h; omega

theorem makeslicePanics_iff_of_nonneg (w : Int) (hw : 0 < w) (n : Int) (hn : 0 ≤ n) :
    makeslicePanics w (n.tdiv w) ↔ (maxAlloc : Int) < w * (n / w) := by
  have h : n.tdiv w = n / w := Int.tdiv_eq_ediv hn (Int.le_of_lt hw)
  have h0 : 0 ≤ n / w := Int.ediv_nonneg hn (Int.le_of_lt hw)
  unfold makeslicePanics
  rw [h]
  constructor
  · rintro (hneg | hbig)
    · omega
    · exact hbig
  · exact fun hbig => Or.inr hbig

theorem parseInt32Array_nonneg (data : List Byte) (n : Int) (hn : 0 ≤ n)
    (hb : 4 * (n / 4) ≤ (maxAlloc : Int)) :
    parseInt32Array data n =
      if data.length < 4 * (n / 4).toNat then
        Outcome.err (GoError.wrap "failed to read binary" (shortRead data))
      else Outcome.ok (decodeInt32s (data.take (4 * (n / 4).toNat))) := by
  have h : n.tdiv 4 = n / 4 := Int.tdiv_eq_ediv hn (by decide)
  have hp : ¬ makeslicePanics 4 (n.tdiv 4) := by
    rw [makeslicePanics_iff_of_nonneg 4 (by decide) n hn]
    omega
  rw [parseInt32Array_eq data n hp, h]

theorem parseUInt16Array_nonneg (data : List Byte) (n : Int) (hn : 0 ≤ n)
    (hb : 2 * (n / 2) ≤ (maxAlloc : Int)) :
    parseUInt16Array data n =
      if data.length < 2 * (n / 2).toNat then
        Outcome.err (GoError.wrap "failed to read binary" (shortRead data))
      else Outcome.ok (decodeUint16s (data.take (2 * (n / 2).toNat))) := by
  have h : n.tdiv 2 = n / 2 := Int.tdiv_eq_ediv hn (by decide)
  have hp : ¬ makeslicePanics 2 (n.tdiv 2) := by
    rw [makeslicePanics_iff_of_nonneg 2 (by decide) n hn]
    omega
  rw [parseUInt16Array_eq data n hp, h]

theorem parseInt32Array_over_limit (data : List Byte) (n : Int) (hn : 0 ≤ n)
    (hb : (maxAlloc : Int) < 4 * (n / 4)) :
    parseInt32Array data n = Outcome.panic RuntimePanic.makesliceLen :=
  parseInt32Array_panic data n ((makeslicePanics_iff_of_nonneg 4 (by decide) n hn).mpr hb)

theorem parseUInt16Array_over_limit (data : List Byte) (n : Int) (hn : 0 ≤ n)
    (hb : (maxAlloc : Int) < 2 * (n / 2)) :
    parseUInt16Array data n = Outcome.panic RuntimePanic.makesliceLen :=
  parseUInt16Array_panic data n ((makeslicePanics_iff_of_nonneg 2 (by decide) n hn).mpr hb)

theorem parseInt32Array_ok_bound {data : List Byte} {n : Int} {v : List Int}
    (hv : parseInt32Array data n = Outcome.ok v) (hn : 0 ≤ n) :
    4 * (n / 4) ≤ (maxAlloc : Int) := by
  by_contra hc
  rw [parseInt32Array_over_limit data n hn (by omega)] at hv
  cases hv

theorem parseUInt16Array_ok_bound {data : List Byte} {n : Int} {v : List Nat}
    (hv : parseUInt16Array data n = Outcome.ok v) (hn : 0 ≤ n) :
    2 * (n / 2) ≤ (maxAlloc : Int) := by
  by_contra hc
  rw [parseUInt16Array_over_limit data n hn (by omega)] at hv
  cases hv

/-- C13. Array decoders: for a non-negative declared length n, whenever
parseInt32Array succeeds its result has exactly n / 4 elements and element k
is the big-endian signed 32-bit value of payload bytes 4k to 4k+3; whenever
parseUInt16Array succeeds its result has exactly n / 2 elements and element k
is payload[2k] * 256 + payload[2k+1]. -/
theorem array_decoders_elements (data : List Byte) (n : Int) (hn : 0 ≤ n) :
    (∀ v, parseInt32Array data n = Outcome.ok v →
      (v.length : Int) = n / 4 ∧
      ∀ k, k < v.length → ∃ b0 b1 b2 b3, data[4 * k]? = some b0 ∧
        data[4 * k + 1]? = some b1 ∧ data[4 * k + 2]? = some b2 ∧
        data[4 * k + 3]? = some b3 ∧ v[k]? = some (asInt32 (beUint32 b0 b1 b2 b3))) ∧
    (∀ v, parseUInt16Array data n = Outcome.ok v →
      (v.length : Int) = n / 2 ∧
      ∀ k, k < v.length → ∃ b0 b1, data[2 * k]? = some b0 ∧ data[2 * k + 1]? = some b1 ∧
        v[k]? = some (b0.val * 256 + b1.val)) := by
  constructor
  · intro v hv
    rw [parseInt32Array_nonneg data n hn (parseInt32Array_ok_bound hv hn)] at hv
    split_ifs at hv with hlt
    simp only [Outcome.ok.injEq] at hv
    obtain ⟨hlen, hel⟩ := decodeInt32s_take (n / 4).toNat data (by omega)
    rw [hv] at hlen hel
    refine ⟨by omega, fun k hk => hel k (by omega)⟩
  · intro v hv
    rw [parseUInt16Array_nonneg data n hn (parseUInt16Array_ok_bound hv hn)] at hv
    split_ifs at hv with hlt
    simp only [Outcome.ok.injEq] at hv
    obtain ⟨hlen, hel⟩ := decodeUint16s_take (n / 2).toNat data (by omega)
    rw [hv] at hlen hel
    refine ⟨by omega, fun k hk => ?_⟩
    obtain ⟨b0, b1, e0, e1, e2⟩ := hel k (by omega)
    exact ⟨b0, b1, e0, e1, by simpa using e2⟩

/-- Nine payload bytes with declared length 9 decode to the two int32 values
1 and -1, and five payload bytes with declared length 5 to the two uint16
values 1 and 258. -/
theorem array_decoders_elements_witness :
    parseInt32Array [0, 0, 0, 1, 255, 255, 255, 255, 9] 9 = Outcome.ok [1, -1] ∧
    parseUInt16Array [0, 1, 1, 2, 9] 5 = Outcome.ok [1, 258] ∧
    ((([1, -1] : List Int).length : Int) = 9 / 4 ∧
      ∀ k, k < ([1, -1] : List Int).length → ∃ b0 b1 b2 b3,
        ([0, 0, 0, 1, 255, 255, 255, 255, 9] : List Byte)[4 * k]? = some b0 ∧
        ([0, 0, 0, 1, 255, 255, 255, 255, 9] : List Byte)[4 * k + 1]? = some b1 ∧
        ([0, 0, 0, 1, 255, 255, 255, 255, 9] : List Byte)[4 * k + 2]? = some b2 ∧
        ([0, 0, 0, 1, 255, 255, 255, 255, 9] : List Byte)[4 * k + 3]? = some b3 ∧
        ([1, -1] : List Int)[k]? = some (asInt32 (beUint32 b0 b1 b2 b3))) :=
  ⟨by decide, by decide,
    (array_decoders_elements [0, 0, 0, 1, 255, 255, 255, 255, 9] 9 (by decide)).1 [1, -1]
      (by decide)⟩

/-- C14, as amended. Array decoders fail on short payloads: whenever the
payload has fewer than 4 * (n / 4) bytes, parseInt32Array returns an error if
those 4 * (n / 4) bytes are within the allocation limit of the runtime, and
panics in make if they are above it; likewise parseUInt16Array whenever the
payload has fewer than 2 * (n / 2) bytes. -/
theorem array_decoders_short (data : List Byte) (n : Int) :
    ((data.length : Int) < 4 * (n / 4) →
      (4 * (n / 4) ≤ (maxAlloc : Int) → ∃ x, parseInt32Array data n = Outcome.err x) ∧
      ((maxAlloc : Int) < 4 * (n / 4) →
        parseInt32Array data n = Outcome.panic RuntimePanic.makesliceLen)) ∧
    ((data.length : Int) < 2 * (n / 2) →
      (2 * (n / 2) ≤ (maxAlloc : Int) → ∃ x, parseUInt16Array data n = Outcome.err x) ∧
      ((maxAlloc : Int) < 2 * (n / 2) →
        parseUInt16Array data n = Outcome.panic RuntimePanic.makesliceLen)) := by
  constructor
  · intro h
    have hn : 0 ≤ n := by omega
    refine ⟨fun hb => ?_, fun hb => parseInt32Array_over_limit data n hn hb⟩
    rw [parseInt32Array_nonneg data n hn hb]
    have : data.length < 4 * (n / 4).toNat := by omega
    exact ⟨_, by rw [if_pos this]⟩
  · intro h
    have hn : 0 ≤ n := by omega
    refine ⟨fun hb => ?_, fun hb => parseUInt16Array_over_limit data n hn hb⟩
    rw [parseUInt16Array_nonneg data n hn hb]
    have : data.length < 2 * (n / 2).toNat := by omega
    exact ⟨_, by rw [if_pos this]⟩

/-- Three payload bytes with declared length 4, and one payload byte with
declared length 2, are errors; an empty payload with declared length 2^62 is
a panic of make. -/
theorem array_decoders_short_witness :
    ((([1, 2, 3] : List Byte).length : Int) < 4 * (4 / 4)) ∧
    (∃ x, parseInt32Array [1, 2, 3] 4 = Outcome.err x) ∧
    ((([1] : List Byte).length : Int) < 2 * (2 / 2)) ∧
    (∃ x, parseUInt16Array [1] 2 = Outcome.err x) ∧
    parseInt32Array [] 4611686018427387904 = Outcome.panic RuntimePanic.makesliceLen :=
  ⟨by decide, ((array_decoders_short [1, 2, 3] 4).1 (by decide)).1 (by decide), by decide,
    ((array_decoders_short [1] 2).2 (by decide)).1 (by decide),
    ((array_decoders_short [] 4611686018427387904).1 (by decide)).2 (by decide)⟩

/-- C14, as stated, fails: a payload of four bytes is shorter than the
declared length 5, and a payload of two bytes shorter than the declared
length 3, yet both decoders succeed with one element; and an empty payload
with the declared length 2^62 makes both decoders panic in make. -/
theorem short_of_declared_length_decodes :
    ((([0, 0, 0, 1] : List Byte).length : Int) < 5) ∧
    parseInt32Array [0, 0, 0, 1] 5 = Outcome.ok [1] ∧
    ((([0, 1] : List Byte).length : Int) < 3) ∧
    parseUInt16Array [0, 1] 3 = Outcome.ok [1] ∧
    ((([] : List Byte).length : Int) < 4611686018427387904) ∧
    parseInt32Array [] 4611686018427387904 = Outcome.panic RuntimePanic.makesliceLen ∧
    parseUInt16Array [] 4611686018427387904 = Outcome.panic RuntimePanic.makesliceLen :=
  ⟨by decide, by decide, by decide, by decide, by decide, by decide, by decide⟩

theorem splitOn_two_nuls (data : List Byte) :
    ∃ x xs, (data ++ [0, 0]).splitOn 0 = (x :: xs) ++ [[], []] := by
  induction data with
  | nil => exact ⟨[], [], by decide⟩
  | cons b t ih =>
    obtain ⟨x, xs, h⟩ := ih
    rw [List.splitOn] at h ⊢
    rw [List.cons_append, List.splitOnP_cons, h]
    by_cases hb : (b == (0 : Byte)) = true
    · rw [if_pos hb]
      exact ⟨[], x :: xs, rfl⟩
    · rw [if_neg hb]
      exact ⟨b :: x, xs, rfl⟩

/-- C17. Missing trailing NUL is tolerated: for a non-empty list of NUL-free
strings whose last element is non-empty, parseStringArray applied to the
elements joined by single NUL bytes, with no trailing NUL, returns exactly
that list; on every payload parseStringArray returns all segments of the
split or all but one final empty segment; and a payload ending in two NUL
bytes yields a final empty-string element. -/
theorem parseStringArray_lenient :
    (∀ l : List GoString, (∀ s ∈ l, (0 : Byte) ∉ s) → (∃ s, l.getLast? = some s ∧ s ≠ []) →
      parseStringArray (List.intercalate [0] l) = l) ∧
    (∀ data : List Byte, parseStringArray data = data.splitOn 0 ∨
      data.splitOn 0 = parseStringArray data ++ [[]]) ∧
    (∀ data : List Byte, (parseStringArray (data ++ [0, 0])).getLast? = some []) := by
  refine ⟨?_, ?_, ?_⟩
  · rintro l hl ⟨s, hs, hne⟩
    have hnil : l ≠ [] := by
      intro hc
      rw [hc] at hs
      simp at hs
    unfold parseStringArray
    simp only [List.splitOn_intercalate l 0 hl hnil, hs]
    have : ¬ (l.length > 0 ∧ some s = some ([] : GoString)) := by
      rintro ⟨-, hc⟩
      exact hne (Option.some.inj hc)
    rw [if_neg this]
  · intro data
    unfold parseStringArray
    simp only
    split_ifs with h
    · right
      have := List.dropLast_append_getLast? [] h.2
      exact this.symm
    · left
      rfl
  · intro data
    obtain ⟨x, xs, h⟩ := splitOn_two_nuls data
    unfold parseStringArray
    simp only [h]
    have hd : ((x :: xs) ++ [[], []] : List (List Byte)).dropLast = (x :: xs) ++ [[]] := by
      rw [show ((x :: xs) ++ [[], []] : List (List Byte)) = ((x :: xs) ++ [[]]) ++ [[]] by simp,
        List.dropLast_concat]
    have hl : ((x :: xs) ++ [[], []] : List (List Byte)).getLast? = some [] := by
      rw [show ((x :: xs) ++ [[], []] : List (List Byte)) = ((x :: xs) ++ [[]]) ++ [[]] by simp,
        List.getLast?_concat]
    simp only [hl, hd]
    rw [if_pos ⟨by simp, trivial⟩, List.getLast?_concat]

/-- The payload "usr", NUL, "lib" without a trailing NUL gives both strings,
and "a" followed by two NULs gives "a" and an empty string. -/
theorem parseStringArray_lenient_witness :
    (∀ s ∈ [ascii "usr", ascii "lib"], (0 : Byte) ∉ s) ∧
    (∃ s, [ascii "usr", ascii "lib"].getLast? = some s ∧ s ≠ []) ∧
    List.intercalate [0] [ascii "usr", ascii "lib"] = ascii "usr" ++ [0] ++ ascii "lib" ∧
    parseStringArray (ascii "a" ++ [0, 0]) = [ascii "a", []] ∧
    parseStringArray (List.intercalate [0] [ascii "usr", ascii "lib"]) =
      [ascii "usr", ascii "lib"] :=
  ⟨by decide, ⟨ascii "lib", by decide, by decide⟩, by decide, by decide,
    parseStringArray_lenient.1 [ascii "usr", ascii "lib"] (by decide)
      ⟨ascii "lib", by decide, by decide⟩⟩

theorem take_take_self (data : List Byte) (m : Nat) : (data.take m).take m = data.take m := by
  rw [List.take_take, Nat.min_self]

/-- C19. Trailing bytes are ignored: on any payload of four or more bytes
parseInt32 succeeds with the big-endian two's-complement value of the first
four bytes, the unsigned value less 2^32 when the first byte is 128 or more,
whatever follows, and SIZE, FILEDIGESTALGO and EPOCH entries accept such
payloads; for a non-negative declared length n and a payload held by a slice,
parseInt32Array succeeds exactly when the payload has at least 4 * (n / 4)
bytes and parseUInt16Array exactly when it has at least 2 * (n / 2), and the
outcome is that of decoding the prefix of that size alone. -/
theorem trailing_bytes_ignored :
    (∀ (b0 b1 b2 b3 : Byte) (rest : List Byte),
      parseInt32 (b0 :: b1 :: b2 :: b3 :: rest) =
        Outcome.ok (signedBigEndian32 b0 b1 b2 b3)) ∧
    (∀ (p : PackageInfo) (e : indexEntry) (b0 b1 b2 b3 : Byte) (rest : List Byte),
      e.Info.Typ = RPM_INT32_TYPE → e.Data = some (b0 :: b1 :: b2 :: b3 :: rest) →
      (e.Info.Tag = RPMTAG_SIZE →
        nevraStep p e = Outcome.ok { p with Size := signedBigEndian32 b0 b1 b2 b3 }) ∧
      (e.Info.Tag = RPMTAG_FILEDIGESTALGO →
        nevraStep p e =
          Outcome.ok { p with DigestAlgorithm := signedBigEndian32 b0 b1 b2 b3 }) ∧
      (e.Info.Tag = RPMTAG_EPOCH →
        nevraStep p e =
          Outcome.ok { p with Epoch := some (signedBigEndian32 b0 b1 b2 b3) })) ∧
    (∀ (data : List Byte) (n : Int), 0 ≤ n → data.length ≤ maxAlloc →
      ((∃ v, parseInt32Array data n = Outcome.ok v) ↔ 4 * (n / 4) ≤ (data.length : Int)) ∧
      (4 * (n / 4) ≤ (data.length : Int) →
        parseInt32Array data n = parseInt32Array (data.take (4 * (n / 4).toNat)) n)) ∧
    (∀ (data : List Byte) (n : Int), 0 ≤ n → data.length ≤ maxAlloc →
      ((∃ v, parseUInt16Array data n = Outcome.ok v) ↔ 2 * (n / 2) ≤ (data.length : Int)) ∧
      (2 * (n / 2) ≤ (data.length : Int) →
        parseUInt16Array data n = parseUInt16Array (data.take (2 * (n / 2).toNat)) n)) := by
  refine ⟨fun b0 b1 b2 b3 _ => ?_, ?_, ?_, ?_⟩
  · rw [← asInt32_eq_signedBigEndian32]
    rfl
  · intro p e b0 b1 b2 b3 rest ht hd
    simp only [← asInt32_eq_signedBigEndian32]
    refine ⟨fun h => ?_, fun h => ?_, fun h => ?_⟩
    · simp [nevraStep, h, ht, indexEntry.bytes, hd, binaryReadInt32]
    · simp [nevraStep, h, ht, indexEntry.bytes, hd, binaryReadInt32]
    · simp [nevraStep, h, ht, hd, parseInt32, binaryReadInt32]
  · intro data n hn hdata
    have hq : 0 ≤ n / 4 := Int.ediv_nonneg hn (by decide)
    constructor
    · constructor
      · rintro ⟨v, hv⟩
        rw [parseInt32Array_nonneg data n hn (parseInt32Array_ok_bound hv hn)] at hv
        split_ifs at hv with hlt
        omega
      · intro h
        rw [parseInt32Array_nonneg data n hn (by omega)]
        have : ¬ data.length < 4 * (n / 4).toNat := by omega
        exact ⟨_, by rw [if_neg this]⟩
    · intro h
      have hb : 4 * (n / 4) ≤ (maxAlloc : Int) := by omega
      have h1 : ¬ data.length < 4 * (n / 4).toNat := by omega
      have h2 : ¬ (data.take (4 * (n / 4).toNat)).length < 4 * (n / 4).toNat := by
        rw [List.length_take]
        omega
      rw [parseInt32Array_nonneg data n hn hb, parseInt32Array_nonneg _ n hn hb, if_neg h1,
        if_neg h2, take_take_self]
  · intro data n hn hdata
    have hq : 0 ≤ n / 2 := Int.ediv_nonneg hn (by decide)
    constructor
    · constructor
      · rintro ⟨v, hv⟩
        rw [parseUInt16Array_nonneg data n hn (parseUInt16Array_ok_bound hv hn)] at hv
        split_ifs at hv with hlt
        omega
      · intro h
        rw [parseUInt16Array_nonneg data n hn (by omega)]
        have : ¬ data.length < 2 * (n / 2).toNat := by omega
        exact ⟨_, by rw [if_neg this]⟩
    · intro h
      have hb : 2 * (n / 2) ≤ (maxAlloc : Int) := by omega
      have h1 : ¬ data.length < 2 * (n / 2).toNat := by omega
      have h2 : ¬ (data.take (2 * (n / 2).toNat)).length < 2 * (n / 2).toNat := by
        rw [List.length_take]
        omega
      rw [parseUInt16Array_nonneg data n hn hb, parseUInt16Array_nonneg _ n hn hb, if_neg h1,
        if_neg h2, take_take_self]

/-- The payload 80 00 00 00 09 reads as -2147483648 whatever its fifth byte,
and six payload bytes with declared length 6 decode to the one element -1,
the two trailing bytes changing nothing. -/
theorem trailing_bytes_ignored_witness :
    signedBigEndian32 128 0 0 0 = -2147483648 ∧
    parseInt32 [128, 0, 0, 0, 9] = Outcome.ok (-2147483648) ∧
    parseInt32 (128 :: 0 :: 0 :: 0 :: [9]) = Outcome.ok (signedBigEndian32 128 0 0 0) ∧
    parseInt32Array [255, 255, 255, 255, 7, 7] 6 = Outcome.ok [-1] ∧
    parseInt32Array [255, 255, 255, 255] 6 = Outcome.ok [-1] ∧
    ([255, 255, 255, 255, 7, 7] : List Byte).length ≤ maxAlloc ∧
    (((∃ v, parseInt32Array [255, 255, 255, 255, 7, 7] 6 = Outcome.ok v) ↔
        4 * ((6 : Int) / 4) ≤ (([255, 255, 255, 255, 7, 7] : List Byte).length : Int)) ∧
      (4 * ((6 : Int) / 4) ≤ (([255, 255, 255, 255, 7, 7] : List Byte).length : Int) →
        parseInt32Array [255, 255, 255, 255, 7, 7] 6 =
          parseInt32Array
            (([255, 255, 255, 255, 7, 7] : List Byte).take (4 * ((6 : Int) / 4).toNat)) 6)) :=
  ⟨by decide, by decide, trailing_bytes_ignored.1 128 0 0 0 [9], by decide, by decide,
    by decide,
    trailing_bytes_ignored.2.2.1 [255, 255, 255, 255, 7, 7] 6 (by decide) (by decide)⟩

/-! ## Properties: independence of the scans from the state -/


theorem nevraStep_err_indep (p p1 : PackageInfo) (e : indexEntry) (x : GoError)
    (h : nevraStep p e = Outcome.err x) : nevraStep p1 e = Outcome.err x := by
  rcases nevraTag_cases e.Info.Tag with ht | ht | ht | ht | ht | ht | ht | ht | ht | ht | ht <;>
    simp [nevraStep, ht] at h ⊢ <;> (repeat' split at h) <;> simp_all

theorem nevraStep_ok_indep (p p1 : PackageInfo) (e : indexEntry) (q : PackageInfo)
    (h : nevraStep p e = Outcome.ok q) : ∃ q1, nevraStep p1 e = Outcome.ok q1 := by
  cases h1 : nevraStep p1 e with
  | ok q1 => exact ⟨q1, rfl⟩
  | err x =>
    rw [nevraStep_err_indep p1 p e x h1] at h
    cases h
  | panic r => exact absurd h1 (nevraStep_ne_panic p1 e r)

theorem fileStep_err_indep (a a1 : FileArrays) (e : indexEntry) (x : GoError)
    (h : fileStep a e = Outcome.err x) : fileStep a1 e = Outcome.err x := by
  rcases fileTag_cases e.Info.Tag with ht | ht | ht | ht | ht | ht | ht | ht | ht | ht <;>
    simp [fileStep, ht] at h ⊢ <;> (repeat' split at h) <;> simp_all

theorem fileStep_panic_indep (a a1 : FileArrays) (e : indexEntry) (r : RuntimePanic)
    (h : fileStep a e = Outcome.panic r) : fileStep a1 e = Outcome.panic r := by
  rcases fileTag_cases e.Info.Tag with ht | ht | ht | ht | ht | ht | ht | ht | ht | ht <;>
    simp [fileStep, ht] at h ⊢ <;> (repeat' split at h) <;> simp_all

theorem fileStep_ok_indep (a a1 : FileArrays) (e : indexEntry) (b : FileArrays)
    (h : fileStep a e = Outcome.ok b) : ∃ b1, fileStep a1 e = Outcome.ok b1 := by
  cases h1 : fileStep a1 e with
  | ok b1 => exact ⟨b1, rfl⟩
  | err x =>
    rw [fileStep_err_indep a1 a e x h1] at h
    cases h
  | panic r =>
    rw [fileStep_panic_indep a1 a e r h1] at h
    cases h

/-! ## Properties: success condition and order of errors -/


theorem joinLoop_ok_or_panic (a : FileArrays) (dirs : List GoString) (idx : List Int)
    (rest : List GoString) (i : Nat) (files : List FileInfo) :
    (∃ out, joinLoop a dirs idx i rest files = Outcome.ok out) ∨
    (∃ j l, joinLoop a dirs idx i rest files =
      Outcome.panic (RuntimePanic.indexOutOfRange j l)) := by
  induction rest generalizing i files with
  | nil => exact Or.inl ⟨files, rfl⟩
  | cons file rest ih =>
    simp only [joinLoop, indexAt]
    cases h1 : idx[i]? with
    | none => exact Or.inr ⟨_, _, rfl⟩
    | some d =>
      simp only [dirAt]
      by_cases hd : d < 0
      · simp only [hd, if_true]
        exact Or.inr ⟨_, _, rfl⟩
      · simp only [hd, if_false]
        cases h2 : dirs[d.toNat]? with
        | none => exact Or.inr ⟨_, _, rfl⟩
        | some dir => exact ih _ _

theorem meetsSuccessCondition_decodable {e : indexEntry} (h : meetsSuccessCondition e) :
    wellTyped e ∧ decodable e := by
  obtain ⟨hw, h1, h2, h3, h4⟩ := h
  refine ⟨hw, ?_⟩
  unfold decodable arrayFits
  split_ifs with c1 c2 c3 c4
  · exact h1 c1
  · exact h2 c2
  · obtain ⟨hn, hl⟩ := h3 c3
    rw [Int.tdiv_eq_ediv hn (by decide)]
    exact ⟨Int.ediv_nonneg hn (by decide), hl⟩
  · obtain ⟨hn, hl⟩ := h4 c4
    rw [Int.tdiv_eq_ediv hn (by decide)]
    exact ⟨Int.ediv_nonneg hn (by decide), hl⟩

/-- C18. Success condition: getNEVRA returns a PackageInfo, without error
and without an out-of-range index, when every entry meets the conditions on
its declared type, payload size and declared length and, whenever both
DIRNAMES and DIRINDEXES were collected, the first len(basenames) directory
indexes exist and lie in [0, len(dirnames)). Conversely, when both were
collected and the directory indexes are fewer than the basenames, or a used
directory index is negative or not below len(dirnames), getFileInfo panics
with an index out of range and getNEVRA returns no PackageInfo. -/
theorem getNEVRA_success_condition (es : List indexEntry) :
    ((∀ e ∈ es, meetsSuccessCondition e) →
      (∀ a dirs idx, collectFileArrays es = Outcome.ok a → a.allDirs = some dirs →
        a.allDirIndexes = some idx → joinInRange (a.allBasenames.getD []) dirs idx) →
      ∃ p, getNEVRA es = Outcome.ok p) ∧
    (∀ a dirs idx, collectFileArrays es = Outcome.ok a → a.allDirs = some dirs →
      a.allDirIndexes = some idx →
      (idx.length < (a.allBasenames.getD []).length ∨
        ∃ i d, i < (a.allBasenames.getD []).length ∧ idx[i]? = some d ∧
          (d < 0 ∨ (dirs.length : Int) ≤ d)) →
      (∃ j l, getFileInfo es = Outcome.panic (RuntimePanic.indexOutOfRange j l)) ∧
      ∀ p, getNEVRA es ≠ Outcome.ok p) := by
  constructor
  · intro hall hjoin
    obtain ⟨q, hq⟩ := nevraLoop_ok_of_forall es
      (fun e he p => nevraStep_ok_of_conforming p e
        (meetsSuccessCondition_decodable (hall e he)).1
        (meetsSuccessCondition_decodable (hall e he)).2) PackageInfo.zero
    obtain ⟨a, ha⟩ := fileLoop_ok_of_forall es
      (fun e he a => fileStep_ok_of_conforming a e
        (meetsSuccessCondition_decodable (hall e he)).1
        (meetsSuccessCondition_decodable (hall e he)).2) FileArrays.zero
    have hcol : collectFileArrays es = Outcome.ok a := ha
    obtain ⟨files, hf⟩ := (joinFiles_ok_iff a).mpr
      (fun dirs idx hd hi => hjoin a dirs idx hcol hd hi)
    exact ⟨{ q with Files := files }, by simp [getNEVRA, hq, getFileInfo_eq_join hcol, hf]⟩
  · intro a dirs idx hcol hd hi hbad
    have hnot : ¬ joinInRange (a.allBasenames.getD []) dirs idx := by
      intro hr
      rcases hbad with hshort | ⟨i, d, hi1, hi2, hi3⟩
      · obtain ⟨d, hd1, -, -⟩ := hr idx.length hshort
        simp at hd1
      · obtain ⟨d1, hd1, h0, hlt⟩ := hr i hi1
        rw [hi2] at hd1
        cases hd1
        omega
    have hnok : ¬ ∃ out, joinFiles a = Outcome.ok out := fun hok =>
      hnot ((joinFiles_ok_iff a).mp hok dirs idx hd hi)
    have hpanic : ∃ j l, getFileInfo es = Outcome.panic (RuntimePanic.indexOutOfRange j l) := by
      rw [getFileInfo_eq_join hcol]
      have hj : joinFiles a = joinLoop a dirs idx 0 (a.allBasenames.getD []) [] := by
        simp [joinFiles, hd, hi]
      rw [hj] at hnok ⊢
      rcases joinLoop_ok_or_panic a dirs idx (a.allBasenames.getD []) 0 [] with hok | hp
      · exact absurd hok hnok
      · exact hp
    refine ⟨hpanic, fun p hp => ?_⟩
    obtain ⟨q, files, -, hf, -⟩ := getNEVRA_ok_inv hp
    obtain ⟨j, l, hjl⟩ := hpanic
    rw [hjl] at hf
    cases hf

/-- The join example meets the conditions and succeeds; with a third basename
and only two directory indexes the join reads index 2 of a slice of length 2
and panics. -/
theorem getNEVRA_success_condition_witness :
    (∀ e ∈ joinExample, meetsSuccessCondition e) ∧
    (∃ p, getNEVRA joinExample = Outcome.ok p) ∧
    collectFileArrays shortDirIndexesExample = Outcome.ok shortDirIndexesArrays ∧
    getFileInfo shortDirIndexesExample =
      Outcome.panic (RuntimePanic.indexOutOfRange 2 2) ∧
    ((∃ j l, getFileInfo shortDirIndexesExample =
        Outcome.panic (RuntimePanic.indexOutOfRange j l)) ∧
      ∀ p, getNEVRA shortDirIndexesExample ≠ Outcome.ok p) :=
  ⟨by decide,
    (getNEVRA_success_condition joinExample).1 (by decide) (by
      intro a dirs idx hcol hd hi
      have hc : collectFileArrays joinExample = Outcome.ok joinExampleArrays := rfl
      rw [hc] at hcol
      cases hcol
      cases hd
      cases hi
      intro i hi
      match i, hi with
      | 0, _ => exact ⟨0, rfl, by decide, by decide⟩
      | 1, _ => exact ⟨1, rfl, by decide, by decide⟩),
    rfl, rfl,
    (getNEVRA_success_condition shortDirIndexesExample).2 shortDirIndexesArrays
      [ascii "/usr/", ascii "/lib/"] [0, 1] rfl rfl rfl (Or.inl (by decide))⟩

theorem nevraStep_passes_of_no_error (e : indexEntry) (h : nevraEntryError e = none)
    (p : PackageInfo) : ∃ q, nevraStep p e = Outcome.ok q := by
  unfold nevraEntryError at h
  cases h0 : nevraStep PackageInfo.zero e with
  | ok q0 => exact nevraStep_ok_indep _ p e q0 h0
  | err x => simp [h0] at h
  | panic r => exact absurd h0 (nevraStep_ne_panic _ e r)

theorem nevraStep_of_entryError (e : indexEntry) (x : GoError)
    (h : nevraEntryError e = some x) (p : PackageInfo) : nevraStep p e = Outcome.err x := by
  unfold nevraEntryError at h
  cases h0 : nevraStep PackageInfo.zero e with
  | ok q0 => simp [h0] at h
  | err y =>
    simp only [h0, Option.some.injEq] at h
    rw [← h]
    exact nevraStep_err_indep _ p e y h0
  | panic r => simp [h0] at h

theorem fileStep_of_entryError (e : indexEntry) (x : GoError)
    (h : fileEntryError e = some x) (a : FileArrays) : fileStep a e = Outcome.err x := by
  unfold fileEntryError at h
  cases h0 : fileStep FileArrays.zero e with
  | ok q0 => simp [h0] at h
  | err y =>
    simp only [h0, Option.some.injEq] at h
    rw [← h]
    exact fileStep_err_indep _ a e y h0
  | panic r => simp [h0] at h

/-- C16, as amended. Order of errors: getNEVRA scans the whole sequence for
the NEVRA tags before getFileInfo scans it for the file tags. When an entry
raises an error in the scan of getNEVRA and no entry before it does, that
error is returned, whatever the file-tag entries before it are. When no
entry raises an error in the scan of getNEVRA, and an entry raises an error in
the scan of getFileInfo while every entry before it passes that scan, that
error is returned, wrapped as the failure to read the package files. -/
theorem getNEVRA_error_order (xs ys : List indexEntry) (e : indexEntry) (x : GoError) :
    ((∀ y ∈ xs, nevraEntryError y = none) → nevraEntryError e = some x →
      getNEVRA (xs ++ e :: ys) = Outcome.err x) ∧
    ((∀ y ∈ xs ++ e :: ys, nevraEntryError y = none) → (∀ y ∈ xs, filePasses y) →
      fileEntryError e = some x →
      getNEVRA (xs ++ e :: ys) =
        Outcome.err (GoError.wrap "failed to read package files" x)) := by
  constructor
  · intro hxs he
    obtain ⟨p1, h1⟩ := nevraLoop_ok_of_forall xs
      (fun y hy p => nevraStep_passes_of_no_error y (hxs y hy) p) PackageInfo.zero
    apply getNEVRA_err_of_loop
    rw [nevraLoop_append, h1]
    simp only [nevraLoop, nevraStep_of_entryError e x he p1]
  · intro hall hxs he
    obtain ⟨q, hq⟩ := nevraLoop_ok_of_forall (xs ++ e :: ys)
      (fun y hy p => nevraStep_passes_of_no_error y (hall y hy) p) PackageInfo.zero
    obtain ⟨a1, h1⟩ := fileLoop_ok_of_forall xs
      (fun y hy a => by
        obtain ⟨b, hb⟩ := hxs y hy
        exact fileStep_ok_indep _ a y b hb) FileArrays.zero
    have hf : getFileInfo (xs ++ e :: ys) = Outcome.err x := by
      unfold getFileInfo collectFileArrays
      rw [fileLoop_append, h1]
      simp only [fileLoop, fileStep_of_entryError e x he a1]
    simp [getNEVRA, hq, hf]

/-- A BASENAMES entry declared as binary before a NAME entry declared as
binary: the error returned is that of the NAME entry. -/
theorem getNEVRA_error_order_witness :
    (∀ y ∈ [mkEntry RPMTAG_BASENAMES RPM_BIN_TYPE []], nevraEntryError y = none) ∧
    nevraEntryError (mkEntry RPMTAG_NAME RPM_BIN_TYPE []) =
      some (GoError.new "invalid tag name") ∧
    getNEVRA ([mkEntry RPMTAG_BASENAMES RPM_BIN_TYPE []] ++
      mkEntry RPMTAG_NAME RPM_BIN_TYPE [] :: []) = Outcome.err (GoError.new "invalid tag name") :=
  ⟨by decide, by decide,
    (getNEVRA_error_order [mkEntry RPMTAG_BASENAMES RPM_BIN_TYPE []] []
      (mkEntry RPMTAG_NAME RPM_BIN_TYPE []) (GoError.new "invalid tag name")).1
      (by decide) (by decide)⟩

/-- C16, as stated, fails: the first offending entry is the BASENAMES entry
declared as binary, whose error is the invalid basenames tag, yet getNEVRA
returns the error of the NAME entry that follows it. -/
theorem first_offender_not_reported :
    fileThenNevraMismatch =
      [mkEntry RPMTAG_BASENAMES RPM_BIN_TYPE [], mkEntry RPMTAG_NAME RPM_BIN_TYPE []] ∧
    typeMismatch (mkEntry RPMTAG_BASENAMES RPM_BIN_TYPE []) ∧
    typeMismatch (mkEntry RPMTAG_NAME RPM_BIN_TYPE []) ∧
    getNEVRA [mkEntry RPMTAG_BASENAMES RPM_BIN_TYPE []] =
      Outcome.err (GoError.wrap "failed to read package files"
        (GoError.new "invalid tag basenames")) ∧
    getNEVRA fileThenNevraMismatch = Outcome.err (GoError.new "invalid tag name") :=
  ⟨rfl, by decide, by decide, rfl, rfl⟩

/-! ## Properties: the last entry that writes a field -/


theorem nevraLoop_ok_mem (es : List indexEntry) (p0 q : PackageInfo)
    (h : nevraLoop es p0 = Outcome.ok q) :
    ∀ e ∈ es, ∀ p, ∃ p1, nevraStep p e = Outcome.ok p1 := by
  induction es generalizing p0 with
  | nil => intro e he; simp at he
  | cons a es ih =>
    simp only [nevraLoop] at h
    cases hs : nevraStep p0 a with
    | err x => simp [hs] at h
    | panic r => simp [hs] at h
    | ok p1 =>
      simp only [hs] at h
      intro e he p
      rcases List.mem_cons.mp he with rfl | hmem
      · exact nevraStep_ok_indep p0 p e p1 hs
      · exact ih p1 h e hmem p

theorem fileLoop_ok_mem (es : List indexEntry) (a0 b : FileArrays)
    (h : fileLoop es a0 = Outcome.ok b) :
    ∀ e ∈ es, ∀ a, ∃ a1, fileStep a e = Outcome.ok a1 := by
  induction es generalizing a0 with
  | nil => intro e he; simp at he
  | cons c es ih =>
    simp only [fileLoop] at h
    cases hs : fileStep a0 c with
    | err x => simp [hs] at h
    | panic r => simp [hs] at h
    | ok a1 =>
      simp only [hs] at h
      intro e he a
      rcases List.mem_cons.mp he with rfl | hmem
      · exact fileStep_ok_indep a0 a e a1 hs
      · exact ih a1 h e hmem a

theorem getLast?_filter_cons {α : Type} (w : indexEntry → Bool) (f : indexEntry → α)
    (e : indexEntry) (es : List indexEntry) (d : α) :
    (match ((e :: es).filter w).getLast? with
      | some x => f x
      | none => d) =
    (match (es.filter w).getLast? with
      | some x => f x
      | none => if w e then f e else d) := by
  by_cases hw : w e = true
  · rw [List.filter_cons_of_pos hw]
    cases hl : es.filter w with
    | nil => simp [hw]
    | cons y l =>
      rw [List.getLast?_cons_cons]
      cases hz : (y :: l).getLast? with
      | none => simp at hz
      | some z => rfl
  · rw [List.filter_cons_of_neg hw]
    simp [hw]

/-- A field written only by the entries selected by w holds, after the scan of
getNEVRA, what the last selected entry wrote, or its initial value. -/
theorem nevraLoop_field_last {α : Type} (get : PackageInfo → α) (w : indexEntry → Bool)
    (f : indexEntry → α)
    (hstep : ∀ p0 p1 e, nevraStep p0 e = Outcome.ok p1 →
      get p1 = if w e then f e else get p0)
    (es : List indexEntry) (p0 q : PackageInfo) (h : nevraLoop es p0 = Outcome.ok q) :
    get q = match (es.filter w).getLast? with
      | some x => f x
      | none => get p0 := by
  induction es generalizing p0 with
  | nil =>
    simp only [nevraLoop, Outcome.ok.injEq] at h
    simp [h]
  | cons e es ih =>
    simp only [nevraLoop] at h
    cases hs : nevraStep p0 e with
    | err x => simp [hs] at h
    | panic r => simp [hs] at h
    | ok p1 =>
      simp only [hs] at h
      rw [getLast?_filter_cons, ih p1 h, hstep p0 p1 e hs]

/-- A slice written only by the entries selected by w holds, after the scan of
getFileInfo, what the last selected entry wrote, or its initial value. -/
theorem fileLoop_field_last {α : Type} (get : FileArrays → α) (w : indexEntry → Bool)
    (f : indexEntry → α)
    (hstep : ∀ a0 a1 e, fileStep a0 e = Outcome.ok a1 →
      get a1 = if w e then f e else get a0)
    (es : List indexEntry) (a0 b : FileArrays) (h : fileLoop es a0 = Outcome.ok b) :
    get b = match (es.filter w).getLast? with
      | some x => f x
      | none => get a0 := by
  induction es generalizing a0 with
  | nil =>
    simp only [fileLoop, Outcome.ok.injEq] at h
    simp [h]
  | cons e es ih =>
    simp only [fileLoop] at h
    cases hs : fileStep a0 e with
    | err x => simp [hs] at h
    | panic r => simp [hs] at h
    | ok a1 =>
      simp only [hs] at h
      rw [getLast?_filter_cons, ih a1 h, hstep a0 a1 e hs]

theorem nevraStep_ok_writes {p0 p1 : PackageInfo} {e : indexEntry}
    (hs : nevraStep p0 e = Outcome.ok p1) :
    p1.Epoch = (if writerOf RPMTAG_EPOCH e then epochOf e else p0.Epoch) ∧
    p1.Name = (if writerOf RPMTAG_NAME e then trimRightNul e.bytes else p0.Name) ∧
    p1.Version = (if writerOf RPMTAG_VERSION e then trimRightNul e.bytes else p0.Version) ∧
    p1.Release = (if writerOf RPMTAG_RELEASE e then trimRightNul e.bytes else p0.Release) ∧
    p1.Arch = (if writerOf RPMTAG_ARCH e then trimRightNul e.bytes else p0.Arch) ∧
    p1.SourceRpm = (if writerOf RPMTAG_SOURCERPM e then dropNone (trimRightNul e.bytes)
      else p0.SourceRpm) ∧
    p1.Size = (if writerOf RPMTAG_SIZE e then int32Of e else p0.Size) ∧
    p1.License = (if writerOf RPMTAG_LICENSE e then dropNone (trimRightNul e.bytes)
      else p0.License) ∧
    p1.Vendor = (if writerOf RPMTAG_VENDOR e then dropNone (trimRightNul e.bytes)
      else p0.Vendor) ∧
    p1.DigestAlgorithm = (if writerOf RPMTAG_FILEDIGESTALGO e then int32Of e
      else p0.DigestAlgorithm) ∧
    p1.Files = p0.Files := by
  rcases nevraTag_cases e.Info.Tag with h | h | h | h | h | h | h | h | h | h | h <;>
    simp [nevraStep, h, writerOf, writes, epochOf, int32Of] at hs ⊢ <;>
    (repeat' split at hs) <;> (try simp_all) <;> (try subst hs) <;> (try simp)
  rename_i hd _ _ hp
  simp [indexEntry.bytes, hd, hp]

theorem fileStep_ok_writes {a0 a1 : FileArrays} {e : indexEntry}
    (hs : fileStep a0 e = Outcome.ok a1) :
    a1.allBasenames = (if writerOf RPMTAG_BASENAMES e then some (parseStringArray e.bytes)
      else a0.allBasenames) ∧
    a1.allDirs = (if writerOf RPMTAG_DIRNAMES e then some (parseStringArray e.bytes)
      else a0.allDirs) ∧
    a1.allDirIndexes = (if writerOf RPMTAG_DIRINDEXES e then int32ArrayOf e
      else a0.allDirIndexes) ∧
    a1.allFileDigests = (if writerOf RPMTAG_FILEDIGESTS e then some (parseStringArray e.bytes)
      else a0.allFileDigests) ∧
    a1.allFileModes = (if writerOf RPMTAG_FILEMODES e then uint16ArrayOf e
      else a0.allFileModes) ∧
    a1.allFileSizes = (if writerOf RPMTAG_FILESIZES e then int32ArrayOf e
      else a0.allFileSizes) ∧
    a1.allFileFlags = (if writerOf RPMTAG_FILEFLAGS e then int32ArrayOf e
      else a0.allFileFlags) ∧
    a1.allUserNames = (if writerOf RPMTAG_FILEUSERNAME e then some (parseStringArray e.bytes)
      else a0.allUserNames) ∧
    a1.allGroupNames = (if writerOf RPMTAG_FILEGROUPNAME e then some (parseStringArray e.bytes)
      else a0.allGroupNames) := by
  rcases fileTag_cases e.Info.Tag with h | h | h | h | h | h | h | h | h | h <;>
    simp [fileStep, h, writerOf, writes, int32ArrayOf, uint16ArrayOf] at hs ⊢ <;>
    (repeat' split at hs) <;> (try simp_all) <;> (try subst hs) <;> (try simp)

/-- Two sequences with the same last writer for every tag of the scan of
getNEVRA leave the same descriptor. -/
theorem nevraLoop_eq_of_lastWrite (es1 es2 : List indexEntry) (p0 q1 q2 : PackageInfo)
    (h1 : nevraLoop es1 p0 = Outcome.ok q1) (h2 : nevraLoop es2 p0 = Outcome.ok q2)
    (hl : ∀ t ∈ nevraTags, lastWrite t es1 = lastWrite t es2) : q1 = q2 := by
  have key : ∀ {α : Type} (get : PackageInfo → α) (t : Int) (f : indexEntry → α),
      t ∈ nevraTags →
      (∀ p0 p1 e, nevraStep p0 e = Outcome.ok p1 →
        get p1 = if writerOf t e then f e else get p0) → get q1 = get q2 := by
    intro α get t f ht hstep
    rw [nevraLoop_field_last get (writerOf t) f hstep es1 p0 q1 h1,
      nevraLoop_field_last get (writerOf t) f hstep es2 p0 q2 h2]
    have := hl t ht
    unfold lastWrite at this
    rw [this]
  have e1 := key (fun r => r.Epoch) RPMTAG_EPOCH epochOf (by decide)
    (fun _ _ _ hs => (nevraStep_ok_writes hs).1)
  have e2 := key (fun r => r.Name) RPMTAG_NAME (fun e => trimRightNul e.bytes) (by decide)
    (fun _ _ _ hs => (nevraStep_ok_writes hs).2.1)
  have e3 := key (fun r => r.Version) RPMTAG_VERSION (fun e => trimRightNul e.bytes)
    (by decide) (fun _ _ _ hs => (nevraStep_ok_writes hs).2.2.1)
  have e4 := key (fun r => r.Release) RPMTAG_RELEASE (fun e => trimRightNul e.bytes)
    (by decide) (fun _ _ _ hs => (nevraStep_ok_writes hs).2.2.2.1)
  have e5 := key (fun r => r.Arch) RPMTAG_ARCH (fun e => trimRightNul e.bytes) (by decide)
    (fun _ _ _ hs => (nevraStep_ok_writes hs).2.2.2.2.1)
  have e6 := key (fun r => r.SourceRpm) RPMTAG_SOURCERPM
    (fun e => dropNone (trimRightNul e.bytes)) (by decide)
    (fun _ _ _ hs => (nevraStep_ok_writes hs).2.2.2.2.2.1)
  have e7 := key (fun r => r.Size) RPMTAG_SIZE int32Of (by decide)
    (fun _ _ _ hs => (nevraStep_ok_writes hs).2.2.2.2.2.2.1)
  have e8 := key (fun r => r.License) RPMTAG_LICENSE
    (fun e => dropNone (trimRightNul e.bytes)) (by decide)
    (fun _ _ _ hs => (nevraStep_ok_writes hs).2.2.2.2.2.2.2.1)
  have e9 := key (fun r => r.Vendor) RPMTAG_VENDOR
    (fun e => dropNone (trimRightNul e.bytes)) (by decide)
    (fun _ _ _ hs => (nevraStep_ok_writes hs).2.2.2.2.2.2.2.2.1)
  have e10 := key (fun r => r.DigestAlgorithm) RPMTAG_FILEDIGESTALGO int32Of (by decide)
    (fun _ _ _ hs => (nevraStep_ok_writes hs).2.2.2.2.2.2.2.2.2.1)
  have e11 : q1.Files = q2.Files := by
    have g1 := nevraLoop_field_last (fun r => r.Files) (fun _ => false) (fun _ => [])
      (fun _ _ _ hs => by simpa using (nevraStep_ok_writes hs).2.2.2.2.2.2.2.2.2.2)
      es1 p0 q1 h1
    have g2 := nevraLoop_field_last (fun r => r.Files) (fun _ => false) (fun _ => [])
      (fun _ _ _ hs => by simpa using (nevraStep_ok_writes hs).2.2.2.2.2.2.2.2.2.2)
      es2 p0 q2 h2
    simp at g1 g2
    rw [g1, g2]
  cases q1
  cases q2
  simp only at e1 e2 e3 e4 e5 e6 e7 e8 e9 e10 e11
  simp [e1, e2, e3, e4, e5, e6, e7, e8, e9, e10, e11]

/-- Two sequences with the same last writer for every tag of the scan of
getFileInfo leave the same slices. -/
theorem fileLoop_eq_of_lastWrite (es1 es2 : List indexEntry) (a0 b1 b2 : FileArrays)
    (h1 : fileLoop es1 a0 = Outcome.ok b1) (h2 : fileLoop es2 a0 = Outcome.ok b2)
    (hl : ∀ t ∈ fileTags, lastWrite t es1 = lastWrite t es2) : b1 = b2 := by
  have key : ∀ {α : Type} (get : FileArrays → α) (t : Int) (f : indexEntry → α),
      t ∈ fileTags →
      (∀ a0 a1 e, fileStep a0 e = Outcome.ok a1 →
        get a1 = if writerOf t e then f e else get a0) → get b1 = get b2 := by
    intro α get t f ht hstep
    rw [fileLoop_field_last get (writerOf t) f hstep es1 a0 b1 h1,
      fileLoop_field_last get (writerOf t) f hstep es2 a0 b2 h2]
    have := hl t ht
    unfold lastWrite at this
    rw [this]
  have e1 := key (fun r => r.allBasenames) RPMTAG_BASENAMES
    (fun e => some (parseStringArray e.bytes)) (by decide)
    (fun _ _ _ hs => (fileStep_ok_writes hs).1)
  have e2 := key (fun r => r.allDirs) RPMTAG_DIRNAMES
    (fun e => some (parseStringArray e.bytes)) (by decide)
    (fun _ _ _ hs => (fileStep_ok_writes hs).2.1)
  have e3 := key (fun r => r.allDirIndexes) RPMTAG_DIRINDEXES int32ArrayOf (by decide)
    (fun _ _ _ hs => (fileStep_ok_writes hs).2.2.1)
  have e4 := key (fun r => r.allFileDigests) RPMTAG_FILEDIGESTS
    (fun e => some (parseStringArray e.bytes)) (by decide)
    (fun _ _ _ hs => (fileStep_ok_writes hs).2.2.2.1)
  have e5 := key (fun r => r.allFileModes) RPMTAG_FILEMODES uint16ArrayOf (by decide)
    (fun _ _ _ hs => (fileStep_ok_writes hs).2.2.2.2.1)
  have e6 := key (fun r => r.allFileSizes) RPMTAG_FILESIZES int32ArrayOf (by decide)
    (fun _ _ _ hs => (fileStep_ok_writes hs).2.2.2.2.2.1)
  have e7 := key (fun r => r.allFileFlags) RPMTAG_FILEFLAGS int32ArrayOf (by decide)
    (fun _ _ _ hs => (fileStep_ok_writes hs).2.2.2.2.2.2.1)
  have e8 := key (fun r => r.allUserNames) RPMTAG_FILEUSERNAME
    (fun e => some (parseStringArray e.bytes)) (by decide)
    (fun _ _ _ hs => (fileStep_ok_writes hs).2.2.2.2.2.2.2.1)
  have e9 := key (fun r => r.allGroupNames) RPMTAG_FILEGROUPNAME
    (fun e => some (parseStringArray e.bytes)) (by decide)
    (fun _ _ _ hs => (fileStep_ok_writes hs).2.2.2.2.2.2.2.2)
  cases b1
  cases b2
  simp only at e1 e2 e3 e4 e5 e6 e7 e8 e9
  simp [e1, e2, e3, e4, e5, e6, e7, e8, e9]

/-! ## Properties: last write wins, order independence -/


theorem getFileInfo_ok_inv {es : List indexEntry} {files : List FileInfo}
    (h : getFileInfo es = Outcome.ok files) :
    ∃ a, collectFileArrays es = Outcome.ok a ∧ joinFiles a = Outcome.ok files := by
  unfold getFileInfo at h
  cases hc : collectFileArrays es with
  | ok a =>
    simp only [hc] at h
    exact ⟨a, rfl, h⟩
  | err x => simp [hc] at h
  | panic r => simp [hc] at h

/-- A sequence made of entries of a sequence on which getNEVRA succeeds, with
the same last writer for every recognized tag, gives the same PackageInfo. -/
theorem getNEVRA_eq_of_lastWrite (es1 es2 : List indexEntry) (p : PackageInfo)
    (hok : getNEVRA es1 = Outcome.ok p) (hsub : ∀ e ∈ es2, e ∈ es1)
    (hlast : ∀ t ∈ recognizedTags, lastWrite t es2 = lastWrite t es1) :
    getNEVRA es2 = Outcome.ok p := by
  obtain ⟨q, files, hq, hf, rfl⟩ := getNEVRA_ok_inv hok
  obtain ⟨a, ha, hj⟩ := getFileInfo_ok_inv hf
  obtain ⟨q2, hq2⟩ := nevraLoop_ok_of_forall es2
    (fun e he r => nevraLoop_ok_mem es1 _ q hq e (hsub e he) r) PackageInfo.zero
  obtain ⟨a2, ha2⟩ := fileLoop_ok_of_forall es2
    (fun e he r => fileLoop_ok_mem es1 _ a ha e (hsub e he) r) FileArrays.zero
  have e1 : q2 = q := nevraLoop_eq_of_lastWrite es2 es1 _ q2 q hq2 hq
    (fun t ht => hlast t (List.mem_append_left _ ht))
  have e2 : a2 = a := fileLoop_eq_of_lastWrite es2 es1 _ a2 a ha2 ha
    (fun t ht => hlast t (List.mem_append_right _ ht))
  subst e1
  subst e2
  have hc2 : collectFileArrays es2 = Outcome.ok a2 := ha2
  simp [getNEVRA, hq2, getFileInfo_eq_join hc2, hj]

theorem keepLastWrites_mem (es : List indexEntry) :
    ∀ e ∈ keepLastWrites es, e ∈ es := by
  induction es with
  | nil => intro e he; simp [keepLastWrites] at he
  | cons a es ih =>
    intro e he
    unfold keepLastWrites at he
    split_ifs at he
    · exact List.mem_cons_of_mem _ (ih e he)
    · rcases List.mem_cons.mp he with rfl | hm
      · exact List.mem_cons_self _ _
      · exact List.mem_cons_of_mem _ (ih e hm)

theorem lastWrite_keepLastWrites (t : Int) (es : List indexEntry) :
    lastWrite t (keepLastWrites es) = lastWrite t es := by
  induction es with
  | nil => rfl
  | cons a es ih =>
    unfold lastWrite at ih ⊢
    unfold keepLastWrites
    by_cases hw : writerOf t a = true
    · have hta : a.Info.Tag = t := by
        simp only [writerOf, Bool.and_eq_true, decide_eq_true_eq] at hw
        exact hw.1
      have hwa : writes a = true := by
        simp only [writerOf, Bool.and_eq_true] at hw
        exact hw.2
      split_ifs with hc
      · rw [ih, List.filter_cons_of_pos hw]
        rcases hc.2 with hf | ⟨x, hx, hwx⟩
        · rw [hwa] at hf
          cases hf
        · rw [hta] at hwx
          have hmem : x ∈ es.filter (writerOf t) := List.mem_filter.mpr ⟨hx, hwx⟩
          cases hl : es.filter (writerOf t) with
          | nil =>
            rw [hl] at hmem
            simp at hmem
          | cons y l => rw [List.getLast?_cons_cons]
      · rw [List.filter_cons_of_pos hw, List.filter_cons_of_pos hw, List.getLast?_cons,
          List.getLast?_cons, ih]
    · split_ifs with hc
      · rw [ih, List.filter_cons_of_neg hw]
      · rw [List.filter_cons_of_neg hw, List.filter_cons_of_neg hw, ih]

/-- C15, as amended. Last write wins: whenever getNEVRA succeeds, the result
is the result of extracting the sequence in which EPOCH entries with a nil
payload are dropped and, for each recognized tag, only the last remaining
occurrence is kept. Every field is thus determined by the last entry with its
tag, and Epoch by the last EPOCH entry with a present payload. -/
theorem getNEVRA_last_write_wins (es : List indexEntry) (p : PackageInfo)
    (h : getNEVRA es = Outcome.ok p) : getNEVRA (keepLastWrites es) = Outcome.ok p :=
  getNEVRA_eq_of_lastWrite es (keepLastWrites es) p h (keepLastWrites_mem es)
    (fun t _ => lastWrite_keepLastWrites t es)

/-- The identity example has two NAME entries: only the later one is kept and
the result is the same. -/
theorem getNEVRA_last_write_wins_witness :
    getNEVRA identityExample = Outcome.ok identityExampleInfo ∧
    keepLastWrites identityExample = identityExample.drop 1 ∧
    getNEVRA (keepLastWrites identityExample) = Outcome.ok identityExampleInfo :=
  ⟨rfl, by decide, getNEVRA_last_write_wins identityExample identityExampleInfo rfl⟩

/-- C15, as stated, fails: an EPOCH entry with the payload 5 followed by an
EPOCH entry with a nil payload gives the Epoch 5, while the sequence keeping
only the last EPOCH entry gives an unset Epoch. -/
theorem nil_epoch_does_not_overwrite :
    keepLast epochThenNilEpoch = epochThenNilEpoch.drop 1 ∧
    getNEVRA epochThenNilEpoch = Outcome.ok { PackageInfo.zero with Epoch := some 5 } ∧
    getNEVRA (keepLast epochThenNilEpoch) = Outcome.ok PackageInfo.zero ∧
    getNEVRA (keepLast epochThenNilEpoch) ≠ getNEVRA epochThenNilEpoch :=
  ⟨by decide, by decide, by decide, by decide⟩

theorem eq_of_perm_of_length_le_one {α : Type} {l1 l2 : List α} (hp : l1.Perm l2)
    (hl : l2.length ≤ 1) : l1 = l2 := by
  match l2, hl with
  | [], _ => exact List.perm_nil.mp hp
  | [a], _ => exact List.perm_singleton.mp hp

/-- C20. Order independence: when each recognized tag occurs at most once
and getNEVRA succeeds, getNEVRA succeeds on every permutation of the sequence
with an identical PackageInfo, the Files list in the same order included. -/
theorem getNEVRA_order_independent (es1 es2 : List indexEntry) (p : PackageInfo)
    (honce : ∀ t ∈ recognizedTags,
      (es1.filter (fun e => decide (e.Info.Tag = t))).length ≤ 1)
    (hok : getNEVRA es1 = Outcome.ok p) (hperm : es2.Perm es1) :
    getNEVRA es2 = Outcome.ok p := by
  refine getNEVRA_eq_of_lastWrite es1 es2 p hok (fun e he => hperm.mem_iff.mp he) ?_
  intro t ht
  unfold lastWrite
  have hsub : es1.filter (writerOf t) =
      (es1.filter (fun e => decide (e.Info.Tag = t))).filter (writerOf t) := by
    rw [List.filter_filter]
    congr 1
    funext e
    simp only [writerOf]
    cases decide (e.Info.Tag = t) <;> simp
  have hlen : (es1.filter (writerOf t)).length ≤ 1 := by
    rw [hsub]
    exact Nat.le_trans (List.length_filter_le _ _) (honce t ht)
  rw [eq_of_perm_of_length_le_one (hperm.filter (writerOf t)) hlen]

/-- The join example read backwards gives the same PackageInfo, with the
same two file records in the same order. -/
theorem getNEVRA_order_independent_witness :
    (∀ t ∈ recognizedTags,
      (joinExample.filter (fun e => decide (e.Info.Tag = t))).length ≤ 1) ∧
    getNEVRA joinExample = Outcome.ok { PackageInfo.zero with Files := joinExampleFiles } ∧
    joinExample.reverse.Perm joinExample ∧
    getNEVRA joinExample.reverse =
      Outcome.ok { PackageInfo.zero with Files := joinExampleFiles } :=
  ⟨by decide, by decide, by decide,
    getNEVRA_order_independent joinExample joinExample.reverse
      { PackageInfo.zero with Files := joinExampleFiles } (by decide) (by decide)
      (by decide)⟩

/-! ## Properties: type mismatch -/

theorem fileStep_panic_of_allocationPanics (a : FileArrays) (e : indexEntry)
    (h : allocationPanics e) : fileStep a e = Outcome.panic RuntimePanic.makesliceLen := by
  rcases h with ⟨ht, hty, hp⟩ | ⟨ht, hty, hp⟩
  · rcases ht with ht | ht | ht <;>
      simp [fileStep, ht, hty, parseInt32Array_panic _ _ hp]
  · simp [fileStep, ht, hty, parseUInt16Array_panic _ _ hp]

theorem allocationPanics_of_fileStep_panic (a : FileArrays) (e : indexEntry)
    (r : RuntimePanic) (h : fileStep a e = Outcome.panic r) : allocationPanics e := by
  by_contra hc
  exact fileStep_ne_panic a e r hc h

theorem nevraEntryError_none_of_ok {p q : PackageInfo} {e : indexEntry}
    (h : nevraStep p e = Outcome.ok q) : nevraEntryError e = none := by
  obtain ⟨q0, h0⟩ := nevraStep_ok_indep p PackageInfo.zero e q h
  simp [nevraEntryError, h0]

/-- The scan of getFileInfo ends in an error, or in the panic of make at the
first entry that does not pass it, or with the collected slices. -/
theorem fileLoop_outcome (es : List indexEntry) (a : FileArrays) :
    (∃ b, fileLoop es a = Outcome.ok b) ∨ (∃ x, fileLoop es a = Outcome.err x) ∨
    (fileLoop es a = Outcome.panic RuntimePanic.makesliceLen ∧
      ∃ xs y ys, es = xs ++ y :: ys ∧ (∀ z ∈ xs, filePasses z) ∧ allocationPanics y) := by
  induction es generalizing a with
  | nil => exact Or.inl ⟨a, rfl⟩
  | cons e es ih =>
    simp only [fileLoop]
    cases hs : fileStep a e with
    | err x => exact Or.inr (Or.inl ⟨x, rfl⟩)
    | panic r =>
      have hal := allocationPanics_of_fileStep_panic a e r hs
      rw [fileStep_panic_of_allocationPanics a e hal] at hs
      cases hs
      exact Or.inr (Or.inr ⟨rfl, [], e, es, rfl, fun z hz => by simp at hz, hal⟩)
    | ok a1 =>
      have hpass : filePasses e := fileStep_ok_indep a FileArrays.zero e a1 hs
      rcases ih a1 with hok | herr | ⟨hp, xs, y, ys, hes, hxs, hy⟩
      · exact Or.inl hok
      · exact Or.inr (Or.inl herr)
      · refine Or.inr (Or.inr ⟨hp, e :: xs, y, ys, by rw [hes]; rfl, ?_, hy⟩)
        intro z hz
        rcases List.mem_cons.mp hz with rfl | hm
        · exact hpass
        · exact hxs z hm

theorem fileLoop_panic_of_prefix (xs ys : List indexEntry) (y : indexEntry)
    (hxs : ∀ z ∈ xs, filePasses z) (hy : allocationPanics y) (a : FileArrays) :
    fileLoop (xs ++ y :: ys) a = Outcome.panic RuntimePanic.makesliceLen := by
  obtain ⟨b, hb⟩ := fileLoop_ok_of_forall xs
    (fun z hz a1 => by
      obtain ⟨c, hc⟩ := hxs z hz
      exact fileStep_ok_indep _ a1 z c hc) a
  rw [fileLoop_append, hb]
  simp only [fileLoop, fileStep_panic_of_allocationPanics b y hy]

/-- C2, as amended. Type mismatch aborts: a sequence that contains a
recognized entry whose declared type differs from the type the schema
requires never yields a PackageInfo: getNEVRA returns an error, wherever that
entry sits, except exactly when no entry raises an error in the scan of
getNEVRA and the first entry that does not pass the scan of getFileInfo is an
array entry on which make panics; then getNEVRA panics. -/
theorem getNEVRA_typeMismatch (es : List indexEntry) (hm : ∃ e ∈ es, typeMismatch e) :
    ((∃ x, getNEVRA es = Outcome.err x) ∨
      getNEVRA es = Outcome.panic RuntimePanic.makesliceLen) ∧
    (getNEVRA es = Outcome.panic RuntimePanic.makesliceLen ↔
      (∀ z ∈ es, nevraEntryError z = none) ∧
      ∃ xs y ys, es = xs ++ y :: ys ∧ (∀ z ∈ xs, filePasses z) ∧ allocationPanics y) := by
  obtain ⟨e, he, hme⟩ := hm
  cases h1 : nevraLoop es PackageInfo.zero with
  | panic q => exact absurd h1 (nevraLoop_ne_panic es _ q)
  | err x =>
    have herr : getNEVRA es = Outcome.err x := getNEVRA_err_of_loop h1
    refine ⟨Or.inl ⟨x, herr⟩, ?_⟩
    rw [herr]
    constructor
    · intro hc
      cases hc
    · rintro ⟨hall, -⟩
      obtain ⟨q, hq⟩ := nevraLoop_ok_of_forall es
        (fun z hz p => nevraStep_passes_of_no_error z (hall z hz) p) PackageInfo.zero
      rw [hq] at h1
      cases h1
  | ok q =>
    have hall : ∀ z ∈ es, nevraEntryError z = none := by
      intro z hz
      obtain ⟨p1, hp1⟩ := nevraLoop_ok_mem es _ q h1 z hz PackageInfo.zero
      exact nevraEntryError_none_of_ok hp1
    have htag : e.Info.Tag ∈ fileTags := by
      rcases typeMismatch_tag hme with ht | ht
      · obtain ⟨x, hx⟩ := nevraLoop_err_of_mem es e he
          (fun p => nevraStep_mismatch p e hme ht) PackageInfo.zero
        rw [hx] at h1
        cases h1
      · exact ht
    rcases fileLoop_outcome es FileArrays.zero with ⟨b, hb⟩ | ⟨x, hx⟩ | ⟨hp, hdec⟩
    · obtain ⟨b1, hb1⟩ := fileLoop_ok_mem es _ b hb e he FileArrays.zero
      obtain ⟨x, hx⟩ := fileStep_mismatch FileArrays.zero e hme htag
      rw [hx] at hb1
      cases hb1
    · have herr : getNEVRA es =
          Outcome.err (GoError.wrap "failed to read package files" x) := by
        simp [getNEVRA, h1, getFileInfo, collectFileArrays, hx]
      refine ⟨Or.inl ⟨_, herr⟩, ?_⟩
      rw [herr]
      constructor
      · intro hc
        cases hc
      · rintro ⟨-, xs, y, ys, hes, hxs, hy⟩
        have := fileLoop_panic_of_prefix xs ys y hxs hy FileArrays.zero
        rw [← hes, hx] at this
        cases this
    · have hpanic : getNEVRA es = Outcome.panic RuntimePanic.makesliceLen := by
        simp [getNEVRA, h1, getFileInfo, collectFileArrays, hp]
      exact ⟨Or.inr hpanic, ⟨fun _ => ⟨hall, hdec⟩, fun _ => hpanic⟩⟩

/-- A NAME entry declared as binary fails with the error of the NAME type
check, also after a FILESIZES entry declaring the length -4. -/
theorem getNEVRA_typeMismatch_witness :
    getNEVRA binaryNameExample = Outcome.err (GoError.new "invalid tag name") ∧
    (∃ e ∈ negativeLengthThenNameMismatch, typeMismatch e) ∧
    getNEVRA negativeLengthThenNameMismatch = Outcome.err (GoError.new "invalid tag name") ∧
    (((∃ x, getNEVRA negativeLengthThenNameMismatch = Outcome.err x) ∨
        getNEVRA negativeLengthThenNameMismatch =
          Outcome.panic RuntimePanic.makesliceLen) ∧
      (getNEVRA negativeLengthThenNameMismatch = Outcome.panic RuntimePanic.makesliceLen ↔
        (∀ z ∈ negativeLengthThenNameMismatch, nevraEntryError z = none) ∧
        ∃ xs y ys, negativeLengthThenNameMismatch = xs ++ y :: ys ∧
          (∀ z ∈ xs, filePasses z) ∧ allocationPanics y)) :=
  ⟨rfl, by decide, rfl, getNEVRA_typeMismatch negativeLengthThenNameMismatch (by decide)⟩

/-- C2, as stated, fails: a BASENAMES entry declared as binary sits after a
FILESIZES entry declaring the length -4, or the length 2^62, and getNEVRA
panics while allocating the int32 slice instead of returning an error. -/
theorem mismatch_after_negative_length_panics :
    (∃ e ∈ negativeLengthThenMismatch, typeMismatch e) ∧
    getNEVRA negativeLengthThenMismatch = Outcome.panic RuntimePanic.makesliceLen ∧
    (¬ ∃ x, getNEVRA negativeLengthThenMismatch = Outcome.err x) ∧
    (∃ e ∈ hugeLengthThenMismatch, typeMismatch e) ∧
    getNEVRA hugeLengthThenMismatch = Outcome.panic RuntimePanic.makesliceLen :=
  ⟨by decide, rfl,
    (fun ⟨x, hx⟩ => by
      have hp : getNEVRA negativeLengthThenMismatch =
          Outcome.panic RuntimePanic.makesliceLen := rfl
      rw [hp] at hx
      cases hx),
    by decide, by decide⟩

end rpmdb
